import Mathlib

/-!
Verification of the GoPolicy configuration-policy engine.

The definitions below are shallow embeddings of the Go sources of the
repository.  The repository contains two parallel implementations of the
inference and mutation engines:

* an evidence-scoring variant (`internal/policy/policy_processing.go`),
  embedded in namespace `Processing`;
* a Windows variant (`internal/policy/structures.go` second part,
  `internal/policy/policy_state_reader_windows.go`, and the slice-based
  `PolFile` of `src/unnamed/part_001`), embedded in namespaces
  `Structures`, `Reader` and `PolSlice`;
* the map-based policy-file codec (`internal/policy/pol_file.go`),
  embedded in namespace `PolCodec`.

Machine integers are modelled as `Nat` with explicit truncation where Go
converts; the float64 evidence scores of `GetPolicyState` are modelled as
`ℚ` (every score reachable in the claims below is a small multiple of
1/10, where binary float64 and ℚ arithmetic agree on all comparisons that
appear in the statements).
-/

namespace GoPolicy

/-- Dynamic registry value as returned by `GetValue` (Go `interface{}`).
`dword` models Go `uint32`, `intv` a Go `int`/`int32`/`int64`,
`qword` a `uint64`, `multi` a `[]string`, `bytes` raw `[]byte`. -/
inductive GoValue where
  | str (s : String)
  | dword (n : Nat)
  | intv (n : Int)
  | qword (n : Nat)
  | multi (ss : List String)
  | bytes (bs : List Nat)
deriving DecidableEq

/-- Registry value type tags, structures.go: `Delete | Numeric | Text`. -/
inductive PolicyRegistryValueType where
  | delete
  | numeric
  | text
deriving DecidableEq

/-- structures.go `PolicyRegistryValue`. `numberValue` is a Go `uint32`. -/
structure PolicyRegistryValue where
  registryType : PolicyRegistryValueType
  stringValue : String
  numberValue : Nat
deriving DecidableEq

/-- structures.go `PolicyRegistryListEntry`; `value` is a Go pointer and may
be nil. -/
structure PolicyRegistryListEntry where
  registryValue : String
  registryKey : String
  value : Option PolicyRegistryValue
deriving DecidableEq

/-- structures.go `PolicyRegistrySingleList`. -/
structure PolicyRegistrySingleList where
  defaultRegistryKey : String
  affectedValues : List PolicyRegistryListEntry
deriving DecidableEq

/-- structures.go `PolicyRegistryList` (the `AffectedValueSet`); all four
parts are Go pointers and may be nil. -/
structure PolicyRegistryList where
  onValue : Option PolicyRegistryValue
  onValueList : Option PolicyRegistrySingleList
  offValue : Option PolicyRegistryValue
  offValueList : Option PolicyRegistrySingleList
deriving DecidableEq

/-- The empty `AffectedValueSet`, as allocated by the ADMX parser
(presentation.go line 495 always sets `AffectedValues: &PolicyRegistryList{}`). -/
def PolicyRegistryList.empty : PolicyRegistryList :=
  ⟨none, none, none, none⟩

/-- structures.go `BasePolicyElement` (the identification fields; the
`ElementType` string of the Go struct is represented by the constructor of
`PolicyElement`, which the parser keeps consistent with the struct type). -/
structure BasePolicyElement where
  id : String
  registryKey : String
  registryValue : String
deriving DecidableEq

/-- structures.go `EnumPolicyElementItem`. -/
structure EnumPolicyElementItem where
  value : Option PolicyRegistryValue
  valueList : Option PolicyRegistrySingleList
deriving DecidableEq

/-- The closed sum of structures.go element structs.  Field names follow the
Go fields; `hasPfx` stands for the list element's numeric-prefix flag. -/
inductive PolicyElement where
  | decimal (base : BasePolicyElement) (required : Bool) (minimum maximum : Nat)
      (storeAsText : Bool)
  | boolean (base : BasePolicyElement) (affectedRegistry : PolicyRegistryList)
  | text (base : BasePolicyElement) (required : Bool) (maxLength : Nat)
      (regExpandSz : Bool)
  | list (base : BasePolicyElement) (hasPfx noPurgeOthers regExpandSz userProvidesNames : Bool)
  | enum (base : BasePolicyElement) (required : Bool) (items : List EnumPolicyElementItem)
  | multiText (base : BasePolicyElement)
deriving DecidableEq

/-- The `GetBase`-style accessors shared by all element structs. -/
def PolicyElement.base : PolicyElement → BasePolicyElement
  | .decimal b _ _ _ _ => b
  | .boolean b _ => b
  | .text b _ _ _ => b
  | .list b _ _ _ _ => b
  | .enum b _ _ => b
  | .multiText b => b

/-- structures.go `AdmxPolicy`, restricted to the fields the inference and
mutation engines read.  `affectedValues` is non-optional: every policy the
program constructs has a non-nil `AffectedValues` (presentation.go:495),
and the evidence engine dereferences it unconditionally. -/
structure AdmxPolicy where
  registryKey : String
  registryValue : String
  affectedValues : PolicyRegistryList
  elements : List PolicyElement
deriving DecidableEq

/-- structures.go `AdmxPolicySection` (Machine = 1, User = 2, Both = 3). -/
inductive AdmxPolicySection where
  | machine
  | user
  | both
deriving DecidableEq

/-- policy_state.go `PolicyState`. -/
inductive PolicyState where
  | notConfigured
  | disabled
  | enabled
  | unknown
deriving DecidableEq

/-- Resolution of an element's registry key against the policy's key:
`elemKey := rawpol.RegistryKey; if elem.GetRegistryKey() != "" { elemKey = ... }`. -/
def elemKeyOf (defaultKey : String) (base : BasePolicyElement) : String :=
  if base.registryKey ≠ "" then base.registryKey else defaultKey

namespace Processing

/-- The read-only half of policy_processing.go's `PolicySource` interface,
as a record of functions (a key/value-name typed store plus delete-marker
queries).  `getValue` returns `none` where the Go method returns an error. -/
structure PSource where
  containsValue : String → String → Bool
  getValue : String → String → Option GoValue
  getValueNames : String → List String
  willDeleteValue : String → String → Bool

/-- Go `uint32(v)` applied to an `int`. -/
def toUint32 (v : Int) : Nat := (v % (2 ^ 32)).toNat

/-- policy_processing.go `valuePresent`. -/
def valuePresent (value : PolicyRegistryValue) (source : PSource) (key valueName : String) :
    Bool :=
  match value.registryType with
  | .delete => source.willDeleteValue key valueName
  | .numeric =>
      if !source.containsValue key valueName then false
      else
        match source.getValue key valueName with
        | none => false
        | some (.dword n) => n == value.numberValue
        | some (.intv v) => toUint32 v == value.numberValue
        | some _ => false
  | .text =>
      if !source.containsValue key valueName then false
      else
        match source.getValue key valueName with
        | none => false
        | some (.str s) => s == value.stringValue
        | some _ => false

/-- Evidence contributed by `checkOneVal` (1 when the value is present,
else 0; a nil value contributes nothing). -/
def checkOneValQ (source : PSource) (value : Option PolicyRegistryValue)
    (key valueName : String) : ℚ :=
  match value with
  | none => 0
  | some v => if valuePresent v source key valueName then 1 else 0

/-- Evidence contributed by `checkValList` (one unit per present entry). -/
def checkValListQ (source : PSource) (valList : Option PolicyRegistrySingleList)
    (defaultKey : String) : ℚ :=
  match valList with
  | none => 0
  | some l =>
      let listKey := if l.defaultRegistryKey ≠ "" then l.defaultRegistryKey else defaultKey
      (l.affectedValues.map (fun e =>
        let entryKey := if e.registryKey ≠ "" then e.registryKey else listKey
        checkOneValQ source e.value entryKey e.registryValue)).sum

/-- The implicit "on" convention: `PolicyRegistryValue{NumberValue: 1, RegistryType: Numeric}`. -/
def implicitOn : PolicyRegistryValue := ⟨.numeric, "", 1⟩

/-- The implicit "off" convention: `PolicyRegistryValue{RegistryType: Delete}`. -/
def implicitOff : PolicyRegistryValue := ⟨.delete, "", 0⟩

/-- Evidence from the policy's standard registry value plus `OnValueList`
(`GetPolicyState` lines 52-71). -/
def mainEnabledEvidence (source : PSource) (p : AdmxPolicy) : ℚ :=
  (if p.registryValue ≠ "" then
    match p.affectedValues.onValue with
    | none => checkOneValQ source (some implicitOn) p.registryKey p.registryValue
    | some v => checkOneValQ source (some v) p.registryKey p.registryValue
   else 0)
  + checkValListQ source p.affectedValues.onValueList p.registryKey

/-- Evidence from the policy's standard registry value plus `OffValueList`. -/
def mainDisabledEvidence (source : PSource) (p : AdmxPolicy) : ℚ :=
  (if p.registryValue ≠ "" then
    match p.affectedValues.offValue with
    | none => checkOneValQ source (some implicitOff) p.registryKey p.registryValue
    | some v => checkOneValQ source (some v) p.registryKey p.registryValue
   else 0)
  + checkValListQ source p.affectedValues.offValueList p.registryKey

/-- Per-element contribution to the `(deletedElements, presentElements)`
counters (`GetPolicyState` lines 79-115): a list element contributes to
`deletedElements` when its key is marked deleted and no value name is
enumerated, and to `presentElements` when some name is enumerated; a
boolean element whose own value is marked deleted contributes 1 to
`deletedElements`, and otherwise 0.1 per off-match to `deletedElements`
and one unit per on-match to `presentElements`; every other element
contributes 1 to `deletedElements` when deleted, else 1 to
`presentElements` when present. -/
def elemDelta (source : PSource) (defaultKey : String) (elem : PolicyElement) : ℚ × ℚ :=
  let elemKey := elemKeyOf defaultKey elem.base
  match elem with
  | .list _ _ _ _ _ =>
      let willDel := source.willDeleteValue elemKey ""
      let hasNames := !(source.getValueNames elemKey).isEmpty
      ((if willDel && !hasNames then 1 else 0), (if hasNames then 1 else 0))
  | .boolean base affected =>
      if source.willDeleteValue elemKey base.registryValue then (1, 0)
      else
        let checkboxDisabled :=
          checkOneValQ source affected.offValue elemKey base.registryValue
          + checkValListQ source affected.offValueList elemKey
        (checkboxDisabled * (1 / 10),
          checkOneValQ source affected.onValue elemKey base.registryValue
          + checkValListQ source affected.onValueList elemKey)
  | e =>
      if source.willDeleteValue elemKey e.base.registryValue then (1, 0)
      else if source.containsValue elemKey e.base.registryValue then (0, 1)
      else (0, 0)

/-- The `deletedElements` counter after the element loop. -/
def deletedElements (source : PSource) (p : AdmxPolicy) : ℚ :=
  (p.elements.map (fun e => (elemDelta source p.registryKey e).1)).sum

/-- The `presentElements` counter after the element loop. -/
def presentElements (source : PSource) (p : AdmxPolicy) : ℚ :=
  (p.elements.map (fun e => (elemDelta source p.registryKey e).2)).sum

/-- The accumulated `enabledEvidence` at the decision point of
`GetPolicyState`. -/
def enabledEvidence (source : PSource) (p : AdmxPolicy) : ℚ :=
  mainEnabledEvidence source p
  + (if 0 < presentElements source p then presentElements source p else 0)

/-- The accumulated `disabledEvidence` at the decision point of
`GetPolicyState`. -/
def disabledEvidence (source : PSource) (p : AdmxPolicy) : ℚ :=
  mainDisabledEvidence source p
  + (if 0 < presentElements source p then 0
     else if 0 < deletedElements source p then deletedElements source p else 0)

/-- policy_processing.go `GetPolicyState`: the element loop is a left fold
accumulating the two counters, followed by the evidence comparison (the Go
`if rawpol.Elements != nil && len(...) > 0` guard is omitted because both
counters and both conditional additions are zero for an empty element
list). -/
def getPolicyState (source : PSource) (rawpol : AdmxPolicy) : PolicyState :=
  let counters := rawpol.elements.foldl
    (fun acc elem =>
      let d := elemDelta source rawpol.registryKey elem
      (acc.1 + d.1, acc.2 + d.2)) ((0 : ℚ), (0 : ℚ))
  let enabledEv := mainEnabledEvidence source rawpol
    + (if 0 < counters.2 then counters.2 else 0)
  let disabledEv := mainDisabledEvidence source rawpol
    + (if 0 < counters.2 then 0 else if 0 < counters.1 then counters.1 else 0)
  if disabledEv < enabledEv then .enabled
  else if enabledEv < disabledEv then .disabled
  else if enabledEv = 0 then .notConfigured
  else .unknown

theorem checkOneValQ_nonneg (source : PSource) (value : Option PolicyRegistryValue)
    (key valueName : String) : 0 ≤ checkOneValQ source value key valueName := by
  unfold checkOneValQ
  cases value with
  | none => norm_num
  | some v =>
      dsimp only
      split <;> norm_num

theorem checkValListQ_nonneg (source : PSource)
    (valList : Option PolicyRegistrySingleList) (defaultKey : String) :
    0 ≤ checkValListQ source valList defaultKey := by
  unfold checkValListQ
  cases valList with
  | none => simp
  | some l =>
      refine List.sum_nonneg ?_
      intro x hx
      simp only [List.mem_map] at hx
      obtain ⟨e, _, he⟩ := hx
      exact he ▸ checkOneValQ_nonneg _ _ _ _

theorem elemDelta_fst_nonneg (source : PSource) (defaultKey : String)
    (elem : PolicyElement) : 0 ≤ (elemDelta source defaultKey elem).1 := by
  unfold elemDelta
  cases elem <;> simp only []
  case list => split <;> norm_num
  case boolean b a =>
      split
      · norm_num
      · simp only []
        have h1 := checkOneValQ_nonneg source a.offValue
          (elemKeyOf defaultKey (PolicyElement.boolean b a).base) b.registryValue
        have h2 := checkValListQ_nonneg source a.offValueList
          (elemKeyOf defaultKey (PolicyElement.boolean b a).base)
        positivity
  all_goals split <;> try split
  all_goals norm_num

theorem elemDelta_snd_nonneg (source : PSource) (defaultKey : String)
    (elem : PolicyElement) : 0 ≤ (elemDelta source defaultKey elem).2 := by
  unfold elemDelta
  cases elem <;> simp only []
  case list => split <;> norm_num
  case boolean b a =>
      split
      · norm_num
      · simp only []
        have h1 := checkOneValQ_nonneg source a.onValue
          (elemKeyOf defaultKey (PolicyElement.boolean b a).base) b.registryValue
        have h2 := checkValListQ_nonneg source a.onValueList
          (elemKeyOf defaultKey (PolicyElement.boolean b a).base)
        positivity
  all_goals split <;> try split
  all_goals norm_num

theorem deletedElements_nonneg (source : PSource) (p : AdmxPolicy) :
    0 ≤ deletedElements source p := by
  refine List.sum_nonneg ?_
  intro x hx
  simp only [deletedElements, List.mem_map] at hx
  obtain ⟨e, _, he⟩ := hx
  exact he ▸ elemDelta_fst_nonneg _ _ _

theorem presentElements_nonneg (source : PSource) (p : AdmxPolicy) :
    0 ≤ presentElements source p := by
  refine List.sum_nonneg ?_
  intro x hx
  simp only [presentElements, List.mem_map] at hx
  obtain ⟨e, _, he⟩ := hx
  exact he ▸ elemDelta_snd_nonneg _ _ _

theorem mainEnabledEvidence_nonneg (source : PSource) (p : AdmxPolicy) :
    0 ≤ mainEnabledEvidence source p := by
  unfold mainEnabledEvidence
  have h2 := checkValListQ_nonneg source p.affectedValues.onValueList p.registryKey
  have h1 : (0:ℚ) ≤ (if p.registryValue ≠ "" then
      match p.affectedValues.onValue with
      | none => checkOneValQ source (some implicitOn) p.registryKey p.registryValue
      | some v => checkOneValQ source (some v) p.registryKey p.registryValue
    else 0) := by
    split
    · split <;> exact checkOneValQ_nonneg _ _ _ _
    · norm_num
  linarith

theorem mainDisabledEvidence_nonneg (source : PSource) (p : AdmxPolicy) :
    0 ≤ mainDisabledEvidence source p := by
  unfold mainDisabledEvidence
  have h2 := checkValListQ_nonneg source p.affectedValues.offValueList p.registryKey
  have h1 : (0:ℚ) ≤ (if p.registryValue ≠ "" then
      match p.affectedValues.offValue with
      | none => checkOneValQ source (some implicitOff) p.registryKey p.registryValue
      | some v => checkOneValQ source (some v) p.registryKey p.registryValue
    else 0) := by
    split
    · split <;> exact checkOneValQ_nonneg _ _ _ _
    · norm_num
  linarith

theorem counters_foldl (source : PSource) (k : String)
    (es : List PolicyElement) (a b : ℚ) :
    es.foldl (fun acc elem =>
        let d := elemDelta source k elem
        (acc.1 + d.1, acc.2 + d.2)) (a, b)
      = (a + (es.map (fun e => (elemDelta source k e).1)).sum,
         b + (es.map (fun e => (elemDelta source k e).2)).sum) := by
  induction es generalizing a b with
  | nil => simp
  | cons e rest ih =>
      simp only [List.foldl_cons, List.map_cons, List.sum_cons, ih]
      rw [Prod.mk.injEq]
      exact ⟨by ring, by ring⟩

theorem getPolicyState_eq_decision (source : PSource) (p : AdmxPolicy) :
    getPolicyState source p =
      (if disabledEvidence source p < enabledEvidence source p then .enabled
       else if enabledEvidence source p < disabledEvidence source p then .disabled
       else if enabledEvidence source p = 0 then .notConfigured
       else .unknown) := by
  unfold getPolicyState
  rw [counters_foldl source p.registryKey p.elements 0 0]
  simp only [zero_add]
  rfl

theorem enabledEvidence_nonneg (source : PSource) (p : AdmxPolicy) :
    0 ≤ enabledEvidence source p := by
  unfold enabledEvidence
  have h1 := mainEnabledEvidence_nonneg source p
  have h2 := presentElements_nonneg source p
  split <;> linarith

theorem disabledEvidence_nonneg (source : PSource) (p : AdmxPolicy) :
    0 ≤ disabledEvidence source p := by
  unfold disabledEvidence
  have h1 := mainDisabledEvidence_nonneg source p
  have h2 := deletedElements_nonneg source p
  split
  · linarith
  · split <;> linarith

end Processing

/-- The policy of the evidence-tie test case: one "on" list entry (`A` = 1)
and one "off" list entry (`B` = 2). -/
def tiePolicy : AdmxPolicy :=
  { registryKey := "Software\\Pol"
    registryValue := ""
    affectedValues :=
      { onValue := none
        onValueList := some ⟨"", [⟨"A", "", some ⟨.numeric, "", 1⟩⟩]⟩
        offValue := none
        offValueList := some ⟨"", [⟨"B", "", some ⟨.numeric, "", 2⟩⟩]⟩ }
    elements := [] }

/-- A backend state containing both a matching "on" entry (`A` = 1) and a
matching "off" entry (`B` = 2) for `tiePolicy`. -/
def tieSource : Processing.PSource :=
  { containsValue := fun k v => k == "Software\\Pol" && (v == "A" || v == "B")
    getValue := fun k v =>
      if k == "Software\\Pol" && v == "A" then some (.dword 1)
      else if k == "Software\\Pol" && v == "B" then some (.dword 2)
      else none
    getValueNames := fun _ => []
    willDeleteValue := fun _ _ => false }

/-- C1: for every policy and every key-value source, `GetPolicyState` returns
Enabled iff the accumulated `enabledEvidence` is strictly greater than
`disabledEvidence`, Disabled iff `disabledEvidence` is strictly greater,
NotConfigured iff both scores are zero, and Unknown exactly on a positive
tie; and a source with one matching "on" entry and one matching "off" entry
for the same policy yields Unknown. -/
theorem claim1_evidence_decision :
    (∀ (source : Processing.PSource) (p : AdmxPolicy),
      (Processing.getPolicyState source p = .enabled ↔
          Processing.disabledEvidence source p < Processing.enabledEvidence source p) ∧
      (Processing.getPolicyState source p = .disabled ↔
          Processing.enabledEvidence source p < Processing.disabledEvidence source p) ∧
      (Processing.getPolicyState source p = .notConfigured ↔
          Processing.enabledEvidence source p = 0 ∧ Processing.disabledEvidence source p = 0) ∧
      (Processing.getPolicyState source p = .unknown ↔
          Processing.enabledEvidence source p = Processing.disabledEvidence source p ∧
            0 < Processing.enabledEvidence source p)) ∧
    Processing.getPolicyState tieSource tiePolicy = .unknown := by
  constructor
  · intro source p
    have hd0 := Processing.disabledEvidence_nonneg source p
    have he0 := Processing.enabledEvidence_nonneg source p
    rw [Processing.getPolicyState_eq_decision]
    set e := Processing.enabledEvidence source p with hee
    set d := Processing.disabledEvidence source p with hdd
    split_ifs with h1 h2 h3
    · refine ⟨⟨fun _ => h1, fun _ => rfl⟩, ?_, ?_, ?_⟩
      · exact ⟨fun hh => (by cases hh), fun hh => absurd hh (lt_asymm h1)⟩
      · refine ⟨fun hh => (by cases hh), fun hh => ?_⟩
        exfalso; rw [hh.1, hh.2] at h1; exact lt_irrefl 0 h1
      · refine ⟨fun hh => (by cases hh), fun hh => ?_⟩
        exfalso; rw [hh.1] at h1; exact lt_irrefl d h1
    · refine ⟨?_, ⟨fun _ => h2, fun _ => rfl⟩, ?_, ?_⟩
      · exact ⟨fun hh => (by cases hh), fun hh => absurd hh h1⟩
      · refine ⟨fun hh => (by cases hh), fun hh => ?_⟩
        exfalso; rw [hh.1, hh.2] at h2; exact lt_irrefl 0 h2
      · refine ⟨fun hh => (by cases hh), fun hh => ?_⟩
        exfalso; rw [hh.1] at h2; exact lt_irrefl d h2
    · refine ⟨?_, ?_, ⟨fun _ => ⟨h3, by linarith⟩, fun _ => rfl⟩, ?_⟩
      · exact ⟨fun hh => (by cases hh), fun hh => absurd hh h1⟩
      · exact ⟨fun hh => (by cases hh), fun hh => absurd hh h2⟩
      · refine ⟨fun hh => (by cases hh), fun hh => ?_⟩
        exfalso; rw [h3] at hh; exact lt_irrefl 0 hh.2
    · refine ⟨?_, ?_, ?_, ⟨fun _ => ⟨by linarith, lt_of_le_of_ne he0 (Ne.symm h3)⟩, fun _ => rfl⟩⟩
      · exact ⟨fun hh => (by cases hh), fun hh => absurd hh h1⟩
      · exact ⟨fun hh => (by cases hh), fun hh => absurd hh h2⟩
      · exact ⟨fun hh => (by cases hh), fun hh => absurd hh.1 h3⟩
  · rw [Processing.getPolicyState_eq_decision]
    have hE : Processing.enabledEvidence tieSource tiePolicy = 1 := by
      norm_num [Processing.enabledEvidence, Processing.mainEnabledEvidence,
        Processing.checkValListQ, Processing.checkOneValQ, Processing.valuePresent,
        Processing.presentElements, tieSource, tiePolicy, Processing.implicitOn,
        Processing.elemDelta]
    have hD : Processing.disabledEvidence tieSource tiePolicy = 1 := by
      have hBA : ("B" : String) = "A" ↔ False := by
        constructor
        · intro hh; exact absurd hh (by decide)
        · intro hh; exact hh.elim
      norm_num [hBA, Processing.disabledEvidence, Processing.mainDisabledEvidence,
        Processing.checkValListQ, Processing.checkOneValQ, Processing.valuePresent,
        Processing.presentElements, Processing.deletedElements, tieSource, tiePolicy,
        Processing.implicitOff, Processing.elemDelta, String.reduceEq]
    rw [hE, hD]
    norm_num

/-- Option values supplied by the caller of the mutation engine
(`map[string]interface{}`); the Go float64 case of the decimal conversion
is outside this value domain (no claim exercises it). -/
inductive OptVal where
  | u32 (n : Nat)
  | intv (n : Int)
  | boolv (b : Bool)
  | str (s : String)
  | strs (ss : List String)
  | dict (entries : List (String × String))
deriving DecidableEq

/-- Go `v, _ := x.(bool)` (false when the dynamic type differs). -/
def OptVal.asBool : OptVal → Bool
  | .boolv b => b
  | _ => false

/-- Go `v, _ := x.(string)`. -/
def OptVal.asStr : OptVal → String
  | .str s => s
  | _ => ""

/-- Go `v, ok := x.([]string)`. -/
def OptVal.asStrs : OptVal → Option (List String)
  | .strs ss => some ss
  | _ => none

/-- Go `v, ok := x.(map[string]string)` (the map modelled as an
association list in some iteration order). -/
def OptVal.asDict : OptVal → Option (List (String × String))
  | .dict d => some d
  | _ => none

/-- Go `v, _ := x.(int)`. -/
def OptVal.asInt : OptVal → Int
  | .intv n => n
  | _ => 0

/-- The `uint32` conversion switch of the decimal element write
(`uint32`/`int` accepted, anything else leaves the zero value). -/
def OptVal.asDword : OptVal → Nat
  | .u32 n => n
  | .intv n => Processing.toUint32 n
  | _ => 0

/-- Go `fmt.Sprintf("%v", x)` on the option values reachable here. -/
def OptVal.goFmt : OptVal → String
  | .u32 n => toString n
  | .intv n => toString n
  | .boolv b => cond b "true" "false"
  | .str s => s
  | .strs ss => "[" ++ String.intercalate " " ss ++ "]"
  | .dict _ => "map[]"

/-- Caller-supplied options map (Go `map[string]interface{}`). -/
abbrev Options := List (String × OptVal)

/-- Go map read `options[elem.GetID()]`. -/
def Options.lookup (o : Options) (id : String) : Option OptVal :=
  List.lookup id o

/-- A plain in-memory typed key/value store: the model of the live registry
backend (`RegistryPolicySource`) and the test double for the abstract
`PolicySource` sinks.  Entries are (key, value-name, data). -/
structure MemStore where
  entries : List (String × String × GoValue)
deriving DecidableEq

def MemStore.containsValue (st : MemStore) (k v : String) : Bool :=
  st.entries.any (fun e => e.1 == k && e.2.1 == v)

def MemStore.getValue (st : MemStore) (k v : String) : Option GoValue :=
  (st.entries.find? (fun e => e.1 == k && e.2.1 == v)).map (fun e => e.2.2)

def MemStore.getValueNames (st : MemStore) (k : String) : List String :=
  (st.entries.filter (fun e => e.1 == k)).map (fun e => e.2.1)

def MemStore.setValue (st : MemStore) (k v : String) (data : GoValue) : MemStore :=
  ⟨(st.entries.filter (fun e => !(e.1 == k && e.2.1 == v))) ++ [(k, v, data)]⟩

def MemStore.deleteValue (st : MemStore) (k v : String) : MemStore :=
  ⟨st.entries.filter (fun e => !(e.1 == k && e.2.1 == v))⟩

def MemStore.clearKey (st : MemStore) (k : String) : MemStore :=
  ⟨st.entries.filter (fun e => !(e.1 == k))⟩

/-- Read view of a `MemStore` for the evidence engine (the live registry
carries no delete markers, so `willDeleteValue` is constantly false). -/
def MemStore.asPSource (st : MemStore) : Processing.PSource :=
  { containsValue := st.containsValue
    getValue := st.getValue
    getValueNames := st.getValueNames
    willDeleteValue := fun _ _ => false }

namespace Structures

/-- The write half of the Windows-variant `PolicySource` interface
(structures.go second part): a state type with three primitive mutations,
each returning the mutated state and an optional error.  The `Nat`
argument is the `RegistryValueKind` (0 = RegString, 1 = RegExpandString,
2 = RegDWord, 3 = RegMultiString). -/
structure Sink (σ : Type) where
  setValue : σ → String → String → GoValue → Nat → σ × Option String
  deleteValue : σ → String → String → σ × Option String
  clearKey : σ → String → σ × Option String

/-- Sequencing with Go-style early return: once a call returned an error,
later calls are not made. -/
def step {σ : Type} (r : σ × Option String) (f : σ → σ × Option String) : σ × Option String :=
  match r with
  | (st, some e) => (st, some e)
  | (st, none) => f st

/-- structures.go `applyRegistryValue`. -/
def applyRegistryValue {σ : Type} (S : Sink σ) (st : σ) (key valueName : String)
    (value : Option PolicyRegistryValue) : σ × Option String :=
  match value with
  | none => (st, none)
  | some v =>
      match v.registryType with
      | .delete => S.deleteValue st key valueName
      | .numeric => S.setValue st key valueName (.dword v.numberValue) 2
      | .text => S.setValue st key valueName (.str v.stringValue) 0

/-- structures.go `applySingleList`. -/
def applySingleList {σ : Type} (S : Sink σ) (st : σ) (list : PolicyRegistrySingleList)
    (defaultKey : String) : σ × Option String :=
  let listKey := if list.defaultRegistryKey ≠ "" then list.defaultRegistryKey else defaultKey
  list.affectedValues.foldl
    (fun acc entry =>
      step acc (fun st =>
        let entryKey := if entry.registryKey ≠ "" then entry.registryKey else listKey
        applyRegistryValue S st entryKey entry.registryValue entry.value))
    (st, none)

/-- structures.go `applyRegistryList` (the nil-receiver guard is dead for
parser-built policies, whose `AffectedValues` is always allocated). -/
def applyRegistryList {σ : Type} (S : Sink σ) (st : σ) (regList : PolicyRegistryList)
    (defaultKey defaultValue : String) (isOn : Bool) : σ × Option String :=
  let value := if isOn then regList.onValue else regList.offValue
  let valueList := if isOn then regList.onValueList else regList.offValueList
  step
    (match value with
     | none => (st, none)
     | some v => applyRegistryValue S st defaultKey defaultValue (some v))
    (fun st =>
      match valueList with
      | none => (st, none)
      | some l => applySingleList S st l defaultKey)

/-- The per-element write of structures.go `setPolicyEnabled` (the body of
the element loop for one element whose option value is `v`; the
`e.AffectedRegistry != nil` guards are always true for parser-built
boolean elements). -/
def setElemEnabled {σ : Type} (S : Sink σ) (st : σ) (defaultKey : String)
    (elem : PolicyElement) (v : OptVal) : σ × Option String :=
  let elemKey := elemKeyOf defaultKey elem.base
  match elem with
  | .decimal base _ _ _ storeAsText =>
      if storeAsText then S.setValue st elemKey base.registryValue (.str v.goFmt) 0
      else S.setValue st elemKey base.registryValue (.dword v.asDword) 2
  | .boolean base affected =>
      let checkState := v.asBool
      let r1 :=
        if affected.onValue = none ∧ checkState then
          S.setValue st elemKey base.registryValue (.dword 1) 2
        else (st, none)
      let r2 := step r1 (fun st =>
        if affected.offValue = none ∧ ¬checkState then
          S.deleteValue st elemKey base.registryValue
        else (st, none))
      step r2 (fun st =>
        applyRegistryList S st affected elemKey base.registryValue checkState)
  | .text base _ _ regExpandSz =>
      S.setValue st elemKey base.registryValue (.str v.asStr) (if regExpandSz then 1 else 0)
  | .list base hasPfx noPurgeOthers regExpandSz userProvidesNames =>
      let r1 := if ¬noPurgeOthers then S.clearKey st elemKey else (st, none)
      let regType := if regExpandSz then 1 else 0
      step r1 (fun st =>
        if userProvidesNames then
          match v.asDict with
          | some d =>
              d.foldl (fun acc kv =>
                step acc (fun st => S.setValue st elemKey kv.1 (.str kv.2) regType)) (st, none)
          | none => (st, none)
        else
          match v.asStrs with
          | some items =>
              (items.enum.foldl (fun acc it =>
                step acc (fun st =>
                  let valueName :=
                    if hasPfx then base.registryValue ++ toString (it.1 + 1) else it.2
                  S.setValue st elemKey valueName (.str it.2) regType)) (st, none))
          | none => (st, none))
  | .enum base _ items =>
      let selIdx := v.asInt
      if 0 ≤ selIdx ∧ selIdx < items.length then
        match items.get? selIdx.toNat with
        | some item =>
            step
              (match item.value with
               | none => (st, none)
               | some pv => applyRegistryValue S st elemKey base.registryValue (some pv))
              (fun st =>
                match item.valueList with
                | none => (st, none)
                | some l => applySingleList S st l elemKey)
        | none => (st, none)
      else (st, none)
  | .multiText base =>
      match v.asStrs with
      | some strs => S.setValue st elemKey base.registryValue (.multi strs) 3
      | none => (st, none)

/-- structures.go `setPolicyEnabled` (the `policy.AffectedValues == nil`
branch is dead for parser-built policies; elements without a supplied
option value are skipped). -/
def setPolicyEnabled {σ : Type} (S : Sink σ) (st : σ) (p : AdmxPolicy)
    (options : Options) : σ × Option String :=
  let r1 :=
    if p.affectedValues.onValue = none ∧ p.registryValue ≠ "" then
      S.setValue st p.registryKey p.registryValue (.dword 1) 2
    else (st, none)
  let r2 := step r1 (fun st =>
    applyRegistryList S st p.affectedValues p.registryKey p.registryValue true)
  p.elements.foldl
    (fun acc elem =>
      step acc (fun st =>
        match options.lookup elem.base.id with
        | none => (st, none)
        | some v => setElemEnabled S st p.registryKey elem v))
    r2

/-- structures.go `setPolicyDisabled`. -/
def setPolicyDisabled {σ : Type} (S : Sink σ) (st : σ) (p : AdmxPolicy) :
    σ × Option String :=
  let r1 :=
    if p.affectedValues.offValue = none ∧ p.registryValue ≠ "" then
      S.deleteValue st p.registryKey p.registryValue
    else (st, none)
  let r2 := step r1 (fun st =>
    applyRegistryList S st p.affectedValues p.registryKey p.registryValue false)
  p.elements.foldl
    (fun acc elem =>
      step acc (fun st =>
        let elemKey := elemKeyOf p.registryKey elem.base
        match elem with
        | .list _ _ _ _ _ => S.clearKey st elemKey
        | .boolean base affected =>
            if affected.offValue ≠ none ∨ affected.offValueList ≠ none then
              applyRegistryList S st affected elemKey base.registryValue false
            else S.deleteValue st elemKey base.registryValue
        | e => S.deleteValue st elemKey e.base.registryValue))
    r2

/-- structures.go `setPolicyNotConfigured`: delete the policy's main value,
then clear list elements' keys and delete every other element's value. -/
def setPolicyNotConfigured {σ : Type} (S : Sink σ) (st : σ) (p : AdmxPolicy) :
    σ × Option String :=
  let r1 :=
    if p.registryValue ≠ "" then S.deleteValue st p.registryKey p.registryValue
    else (st, none)
  p.elements.foldl
    (fun acc elem =>
      step acc (fun st =>
        let elemKey := elemKeyOf p.registryKey elem.base
        match elem with
        | .list _ _ _ _ _ => S.clearKey st elemKey
        | e => S.deleteValue st elemKey e.base.registryValue))
    r1

end Structures

/-- The in-memory store as a never-failing `Structures.Sink` (the registry
backend model: deletes are plain removals, clears remove every value under
the key). -/
def MemStore.sink : Structures.Sink MemStore :=
  { setValue := fun st k v data _ => (st.setValue k v data, none)
    deleteValue := fun st k v => (st.deleteValue k v, none)
    clearKey := fun st k => (st.clearKey k, none) }

/-- `ForgetValue` on the in-memory store (complete removal of the entry;
the plain store carries no markers). -/
def MemStore.forgetValue (st : MemStore) (k v : String) : MemStore :=
  st.deleteValue k v

/-- Mapping of a dynamic store value to an option value
(`state[elem.GetID()] = val` stores the interface value unchanged;
`qword`/`bytes` never occur as element values in the modelled flows). -/
def GoValue.toOptVal : GoValue → OptVal
  | .str s => .str s
  | .dword n => .u32 n
  | .intv n => .intv n
  | .qword n => .u32 n
  | .multi ss => .strs ss
  | .bytes _ => .strs []

/-- Go map assignment `state[id] = v` on the association-list model. -/
def Options.insert (o : Options) (id : String) (v : OptVal) : Options :=
  if (List.lookup id o).isSome then
    o.map (fun kv => if kv.1 == id then (kv.1, v) else kv)
  else o ++ [(id, v)]

namespace Processing

/-- The `setValue` helper closure of policy_processing.go `SetPolicyState`
over the in-memory store (type codes: 4 = REG_DWORD, 1 = REG_SZ). -/
def setValueHelper (st : MemStore) (key valueName : String)
    (value : Option PolicyRegistryValue) : MemStore :=
  match value with
  | none => st
  | some v =>
      match v.registryType with
      | .delete => st.deleteValue key valueName
      | .numeric => st.setValue key valueName (.dword v.numberValue)
      | .text => st.setValue key valueName (.str v.stringValue)

/-- The `setSingleList` helper closure of policy_processing.go. -/
def setSingleListP (st : MemStore) (singleList : Option PolicyRegistrySingleList)
    (defaultKey : String) : MemStore :=
  match singleList with
  | none => st
  | some l =>
      let listKey := if l.defaultRegistryKey ≠ "" then l.defaultRegistryKey else defaultKey
      l.affectedValues.foldl
        (fun st e =>
          let itemKey := if e.registryKey ≠ "" then e.registryKey else listKey
          setValueHelper st itemKey e.registryValue e.value) st

/-- The `setList` helper closure of policy_processing.go. -/
def setListP (st : MemStore) (list : PolicyRegistryList) (defaultKey defaultValue : String)
    (isOn : Bool) : MemStore :=
  if isOn then
    setSingleListP (setValueHelper st defaultKey defaultValue list.onValue)
      list.onValueList defaultKey
  else
    setSingleListP (setValueHelper st defaultKey defaultValue list.offValue)
      list.offValueList defaultKey

/-- The element write of the Enabled branch of policy_processing.go
`SetPolicyState` (its list case purges the key and writes nothing — the Go
code ends in a `// Simplified` comment; boolean and multiText elements
have no case in its switch). -/
def setElemEnabledP (st : MemStore) (defaultKey : String) (elem : PolicyElement)
    (v : OptVal) : MemStore :=
  let elemKey := elemKeyOf defaultKey elem.base
  match elem with
  | .decimal base _ _ _ storeAsText =>
      if storeAsText then st.setValue elemKey base.registryValue (.str v.goFmt)
      else st.setValue elemKey base.registryValue (.dword v.asDword)
  | .text base _ _ _ =>
      st.setValue elemKey base.registryValue
        (match v with | .str s => .str s | other => .str other.goFmt)
  | .list _ _ noPurgeOthers _ _ =>
      if ¬noPurgeOthers then st.clearKey elemKey else st
  | .enum base _ items =>
      let idx := v.asInt
      if 0 ≤ idx ∧ idx < items.length then
        match items.get? idx.toNat with
        | some item =>
            setSingleListP (setValueHelper st elemKey base.registryValue item.value)
              item.valueList elemKey
        | none => st
      else st
  | _ => st

/-- policy_processing.go `SetPolicyState` over the in-memory store: the
NotConfigured branch forgets only the policy's main value and touches no
element. -/
def setPolicyState (st : MemStore) (p : AdmxPolicy) (state : PolicyState)
    (options : Options) : MemStore :=
  match state with
  | .enabled =>
      let st1 :=
        if p.affectedValues.onValue = none ∧ p.registryValue ≠ "" then
          st.setValue p.registryKey p.registryValue (.dword 1)
        else st
      let st2 := setListP st1 p.affectedValues p.registryKey p.registryValue true
      p.elements.foldl
        (fun st elem =>
          match Options.lookup options elem.base.id with
          | none => st
          | some v => setElemEnabledP st p.registryKey elem v) st2
  | .disabled =>
      let st1 :=
        if p.affectedValues.offValue = none ∧ p.registryValue ≠ "" then
          st.deleteValue p.registryKey p.registryValue
        else st
      let st2 := setListP st1 p.affectedValues p.registryKey p.registryValue false
      p.elements.foldl
        (fun st elem =>
          let elemKey := elemKeyOf p.registryKey elem.base
          match elem with
          | .list _ _ _ _ _ => st.clearKey elemKey
          | e => st.deleteValue elemKey e.base.registryValue) st2
  | .notConfigured =>
      if p.registryValue ≠ "" then st.forgetValue p.registryKey p.registryValue else st
  | .unknown => st

/-- The numeric-prefix read loop of the list case of
`GetPolicyOptionStates` (`Item1`, `Item2`, ... until a name is missing).
`fuel` bounds the unbounded Go loop; any fuel larger than the number of
consecutive present names computes the Go result. -/
def readPrefixLoop (source : PSource) (elemKey pfxName : String) :
    Nat → Nat → List String
  | 0, _ => []
  | fuel + 1, n =>
      let valName := pfxName ++ toString n
      if source.containsValue elemKey valName then
        match source.getValue elemKey valName with
        | some (.str s) => s :: readPrefixLoop source elemKey pfxName fuel (n + 1)
        | _ => readPrefixLoop source elemKey pfxName fuel (n + 1)
      else []

/-- policy_processing.go `GetPolicyOptionStates` (element states of an
enabled policy); the enum case treats a nil item value as no match (the Go
code would dereference nil there). -/
def getPolicyOptionStates (source : PSource) (fuel : Nat) (p : AdmxPolicy) : Options :=
  p.elements.foldl
    (fun state elem =>
      let elemKey := elemKeyOf p.registryKey elem.base
      match elem with
      | .decimal base _ _ _ _ =>
          match source.getValue elemKey base.registryValue with
          | some (.dword n) => state.insert base.id (.u32 n)
          | _ => state
      | .boolean base _ =>
          state.insert base.id (.boolv (source.containsValue elemKey base.registryValue))
      | .text base _ _ _ =>
          match source.getValue elemKey base.registryValue with
          | some v => state.insert base.id v.toOptVal
          | none => state
      | .list base hasPfx _ _ userProvidesNames =>
          if userProvidesNames then
            let names := source.getValueNames elemKey
            let entries := names.foldl
              (fun acc name =>
                match source.getValue elemKey name with
                | some (.str s) => acc ++ [(name, s)]
                | _ => acc) []
            state.insert base.id (.dict entries)
          else if hasPfx then
            state.insert base.id (.strs (readPrefixLoop source elemKey base.registryValue fuel 1))
          else
            state.insert base.id (.strs (source.getValueNames elemKey))
      | .enum base _ items =>
          let selectedIndex :=
            match items.findIdx? (fun item =>
              match item.value with
              | some v => valuePresent v source elemKey base.registryValue
              | none => false) with
            | some i => (i : Int)
            | none => -1
          state.insert base.id (.intv selectedIndex)
      | .multiText base =>
          match source.getValue elemKey base.registryValue with
          | some v => state.insert base.id v.toOptVal
          | none => state)
    []

end Processing

theorem MemStore.mem_deleteValue (st : MemStore) (k v : String)
    (x : String × String × GoValue) :
    x ∈ (st.deleteValue k v).entries ↔ x ∈ st.entries ∧ ¬(x.1 = k ∧ x.2.1 = v) := by
  simp only [MemStore.deleteValue, List.mem_filter, Bool.not_eq_eq_eq_not, Bool.not_true,
    Bool.and_eq_false_iff, beq_eq_false_iff_ne, ne_eq]
  tauto

theorem MemStore.mem_clearKey (st : MemStore) (k : String)
    (x : String × String × GoValue) :
    x ∈ (st.clearKey k).entries ↔ x ∈ st.entries ∧ x.1 ≠ k := by
  simp [MemStore.clearKey, List.mem_filter]

/-- Which entries survive the NotConfigured pass for one element. -/
def ncKeeps (defaultKey : String) (e : PolicyElement) (x : String × String × GoValue) :
    Prop :=
  match e with
  | .list _ _ _ _ _ => x.1 ≠ elemKeyOf defaultKey e.base
  | _ => ¬(x.1 = elemKeyOf defaultKey e.base ∧ x.2.1 = e.base.registryValue)

/-- The per-element NotConfigured operation on the in-memory store. -/
def ncElemOp (defaultKey : String) (elem : PolicyElement) (st : MemStore) : MemStore :=
  let elemKey := elemKeyOf defaultKey elem.base
  match elem with
  | .list _ _ _ _ _ => st.clearKey elemKey
  | e => st.deleteValue elemKey e.base.registryValue

theorem ncElemOp_mem (defaultKey : String) (elem : PolicyElement) (st : MemStore)
    (x : String × String × GoValue) (hx : x ∈ (ncElemOp defaultKey elem st).entries) :
    x ∈ st.entries ∧ ncKeeps defaultKey elem x := by
  cases elem <;>
    simp only [ncElemOp, ncKeeps] at hx ⊢ <;>
    first
      | exact (MemStore.mem_clearKey st _ x).mp hx
      | exact (MemStore.mem_deleteValue st _ _ x).mp hx

theorem nc_run (defaultKey : String) (es : List PolicyElement) (st : MemStore) :
    es.foldl
      (fun acc elem =>
        Structures.step acc (fun st =>
          let elemKey := elemKeyOf defaultKey elem.base
          match elem with
          | .list _ _ _ _ _ => MemStore.sink.clearKey st elemKey
          | e => MemStore.sink.deleteValue st elemKey e.base.registryValue))
      (st, none)
    = (es.foldl (fun st elem => ncElemOp defaultKey elem st) st, none) := by
  induction es generalizing st with
  | nil => rfl
  | cons e rest ih =>
      simp only [List.foldl_cons]
      have hstep : Structures.step (st, none) (fun st =>
          let elemKey := elemKeyOf defaultKey e.base
          match e with
          | .list _ _ _ _ _ => MemStore.sink.clearKey st elemKey
          | e => MemStore.sink.deleteValue st elemKey e.base.registryValue)
          = (ncElemOp defaultKey e st, none) := by
        cases e <;> rfl
      rw [hstep, ih]

theorem nc_fold_mem (defaultKey : String) (es : List PolicyElement) (st : MemStore)
    (x : String × String × GoValue)
    (hx : x ∈ (es.foldl (fun st elem => ncElemOp defaultKey elem st) st).entries) :
    x ∈ st.entries ∧ ∀ e ∈ es, ncKeeps defaultKey e x := by
  induction es generalizing st with
  | nil => exact ⟨hx, by intro e he; cases he⟩
  | cons e rest ih =>
      simp only [List.foldl_cons] at hx
      obtain ⟨h1, h2⟩ := ih (ncElemOp defaultKey e st) hx
      obtain ⟨h3, h4⟩ := ncElemOp_mem defaultKey e st x h1
      refine ⟨h3, ?_⟩
      intro e' he'
      rcases List.mem_cons.mp he' with h | h
      · exact h ▸ h4
      · exact h2 e' h

/-- C2 amended, part 1: the Windows-variant `setPolicyNotConfigured` does
delete the main value and every element's value (lists via a full key
clear) from the sink. -/
theorem claim2_not_configured_clears :
    ∀ (st : MemStore) (p : AdmxPolicy),
      (Structures.setPolicyNotConfigured MemStore.sink st p).2 = none ∧
      (p.registryValue ≠ "" →
        ((Structures.setPolicyNotConfigured MemStore.sink st p).1).containsValue
          p.registryKey p.registryValue = false) ∧
      ∀ e ∈ p.elements,
        match e with
        | .list _ _ _ _ _ =>
            ∀ v, ((Structures.setPolicyNotConfigured MemStore.sink st p).1).containsValue
              (elemKeyOf p.registryKey e.base) v = false
        | _ =>
            ((Structures.setPolicyNotConfigured MemStore.sink st p).1).containsValue
              (elemKeyOf p.registryKey e.base) e.base.registryValue = false := by
  intro st p
  have hrun : Structures.setPolicyNotConfigured MemStore.sink st p
      = (p.elements.foldl (fun st elem => ncElemOp p.registryKey elem st)
          (if p.registryValue ≠ "" then st.deleteValue p.registryKey p.registryValue else st),
         none) := by
    unfold Structures.setPolicyNotConfigured
    have h1 : (if p.registryValue ≠ "" then
        MemStore.sink.deleteValue st p.registryKey p.registryValue else (st, none))
        = ((if p.registryValue ≠ "" then st.deleteValue p.registryKey p.registryValue else st),
           none) := by
      split <;> rfl
    rw [h1, nc_run]
  have hmem : ∀ x, x ∈ ((Structures.setPolicyNotConfigured MemStore.sink st p).1).entries →
      (p.registryValue ≠ "" → ¬(x.1 = p.registryKey ∧ x.2.1 = p.registryValue)) ∧
      ∀ e ∈ p.elements, ncKeeps p.registryKey e x := by
    intro x hx
    rw [hrun] at hx
    obtain ⟨h1, h2⟩ := nc_fold_mem _ _ _ x hx
    refine ⟨?_, h2⟩
    intro hrv
    rw [if_pos hrv] at h1
    exact ((MemStore.mem_deleteValue st _ _ x).mp h1).2
  have hcv : ∀ (k v : String),
      (∀ x ∈ ((Structures.setPolicyNotConfigured MemStore.sink st p).1).entries,
        ¬(x.1 = k ∧ x.2.1 = v)) →
      ((Structures.setPolicyNotConfigured MemStore.sink st p).1).containsValue k v = false := by
    intro k v hall
    cases hb : ((Structures.setPolicyNotConfigured MemStore.sink st p).1).containsValue k v
    · rfl
    · exfalso
      obtain ⟨x, hx, hfx⟩ := List.any_eq_true.mp hb
      simp only [Bool.and_eq_true, beq_iff_eq] at hfx
      exact hall x hx hfx
  refine ⟨by rw [hrun], ?_, ?_⟩
  · intro hrv
    exact hcv _ _ (fun x hx => (hmem x hx).1 hrv)
  · intro e he
    have hkeep : ∀ x ∈ ((Structures.setPolicyNotConfigured MemStore.sink st p).1).entries,
        ncKeeps p.registryKey e x := fun x hx => (hmem x hx).2 e he
    cases e with
    | list b h1 h2 h3 h4 =>
        intro v
        refine hcv _ _ (fun x hx hx2 => ?_)
        exact (hkeep x hx) hx2.1
    | decimal b r mi ma sat =>
        exact hcv _ _ (fun x hx => hkeep x hx)
    | boolean b a => exact hcv _ _ (fun x hx => hkeep x hx)
    | text b r m re => exact hcv _ _ (fun x hx => hkeep x hx)
    | enum b r its => exact hcv _ _ (fun x hx => hkeep x hx)
    | multiText b => exact hcv _ _ (fun x hx => hkeep x hx)

/-- The policy of the C2 test case: main value `Main`, one text element
with value name `Val`, both under key `K`. -/
def c2pol : AdmxPolicy :=
  ⟨"K", "Main", .empty, [.text ⟨"E", "", "Val"⟩ false 255 false]⟩

/-- A sink already containing the main value and the element value. -/
def c2store : MemStore :=
  ⟨[("K", "Main", .dword 1), ("K", "Val", .str "hello")]⟩

/-- C2 counterexample: the policy_processing.go `SetPolicyState` applied
with NotConfigured forgets only the policy's main value; the text
element's value `Val` is still in the sink afterwards, so the claim's
"deletes every element's value" fails on this mutation engine. -/
theorem claim2_counterexample :
    Processing.setPolicyState c2store c2pol .notConfigured [] =
        ⟨[("K", "Val", .str "hello")]⟩ ∧
    (Processing.setPolicyState c2store c2pol .notConfigured []).containsValue "K" "Val"
        = true := by
  decide

/-- C2 amended witness at a concrete input. -/
theorem claim2_not_configured_clears_witness :
    ("Main" : String) ≠ "" ∧
    ((Structures.setPolicyNotConfigured MemStore.sink c2store c2pol).1).containsValue
        "K" "Main" = false ∧
    ((Structures.setPolicyNotConfigured MemStore.sink c2store c2pol).1).containsValue
        "K" "Val" = false := by
  refine ⟨by decide, ?_, ?_⟩
  · exact (claim2_not_configured_clears c2store c2pol).2.1 (by decide)
  · have h := (claim2_not_configured_clears c2store c2pol).2.2
      (.text ⟨"E", "", "Val"⟩ false 255 false) (by decide)
    simpa [elemKeyOf, PolicyElement.base] using h

/-- The policy of the C4 test case: one List element with the numeric
prefix convention, value-name stem `Item`, under the policy's key. -/
def c4pol : AdmxPolicy :=
  ⟨"Software\\Test", "", .empty, [.list ⟨"L", "", "Item"⟩ true false false false]⟩

/-- The option values applied in the C4 test case. -/
def c4opts : Options := [("L", .strs ["a", "b"])]

/-- C4: applying Enabled with `["a","b"]` for a List element with
`hasPrefix` and value name `Item` writes exactly `Item1 = "a"` and
`Item2 = "b"`, and the element read (`GetPolicyOptionStates`) returns the
ordered sequence `["a","b"]`. -/
theorem claim4_list_write_read :
    (Structures.setPolicyEnabled MemStore.sink ⟨[]⟩ c4pol c4opts).1.entries =
      [("Software\\Test", "Item1", .str "a"), ("Software\\Test", "Item2", .str "b")] ∧
    (Structures.setPolicyEnabled MemStore.sink ⟨[]⟩ c4pol c4opts).2 = none ∧
    Processing.getPolicyOptionStates
        ((Structures.setPolicyEnabled MemStore.sink ⟨[]⟩ c4pol c4opts).1).asPSource 10 c4pol
      = [("L", .strs ["a", "b"])] := by
  decide

/-- The boolean-element contributions as the claim words them: 1 per
deleted boolean element and 0.1 per off-match of a non-deleted boolean
element, added directly to `disabledEvidence`.  This definition follows
the claim's words, for comparison with the code's accumulation. -/
def specBooleanDisabledAdds (source : Processing.PSource) (p : AdmxPolicy) : ℚ :=
  (p.elements.map (fun e =>
    match e with
    | .boolean base affected =>
        let elemKey := elemKeyOf p.registryKey base
        if source.willDeleteValue elemKey base.registryValue then (1 : ℚ)
        else
          (Processing.checkOneValQ source affected.offValue elemKey base.registryValue
            + Processing.checkValListQ source affected.offValueList elemKey) * (1 / 10)
    | _ => 0)).sum

/-- The policy of the C5 test case: a boolean element (`BVal`) and a text
element (`TVal`) under key `K`, no main value. -/
def c5pol : AdmxPolicy :=
  ⟨"K", "", .empty,
    [.boolean ⟨"B", "", "BVal"⟩ .empty, .text ⟨"T", "", "TVal"⟩ false 255 false]⟩

/-- A source in which the boolean element's value is marked deleted and
the text element's value is present. -/
def c5src : Processing.PSource :=
  { containsValue := fun k v => k == "K" && v == "TVal"
    getValue := fun _ _ => none
    getValueNames := fun _ => []
    willDeleteValue := fun k v => k == "K" && v == "BVal" }

/-- C5 counterexample: in `c5src`/`c5pol` the boolean element's own value
is marked deleted, so by the claim 1 is added to `disabledEvidence`
(spec-worded total 1); but the code routes boolean evidence through the
`deletedElements` counter, which is discarded because another element is
present — the accumulated `disabledEvidence` is 0 and the policy reads
Enabled. -/
theorem claim5_counterexample :
    specBooleanDisabledAdds c5src c5pol = 1 ∧
    Processing.disabledEvidence c5src c5pol = 0 ∧
    Processing.getPolicyState c5src c5pol = .enabled := by
  have hspec : specBooleanDisabledAdds c5src c5pol = 1 := by
    norm_num [specBooleanDisabledAdds, c5src, c5pol, elemKeyOf]
  have hpres : Processing.presentElements c5src c5pol = 1 := by
    have hTB : ("TVal" : String) = "BVal" ↔ False := by
      constructor
      · intro hh; exact absurd hh (by decide)
      · intro hh; exact hh.elim
    norm_num [Processing.presentElements, Processing.elemDelta, c5src, c5pol, elemKeyOf,
      PolicyElement.base, Processing.checkOneValQ, Processing.checkValListQ,
      PolicyRegistryList.empty, hTB]
  have hE : Processing.enabledEvidence c5src c5pol = 1 := by
    rw [Processing.enabledEvidence, hpres]
    norm_num [Processing.mainEnabledEvidence, c5src, c5pol, Processing.checkValListQ,
      PolicyRegistryList.empty]
  have hD : Processing.disabledEvidence c5src c5pol = 0 := by
    rw [Processing.disabledEvidence, hpres]
    norm_num [Processing.mainDisabledEvidence, c5src, c5pol, Processing.checkValListQ,
      PolicyRegistryList.empty]
  refine ⟨hspec, hD, ?_⟩
  rw [Processing.getPolicyState_eq_decision, hE, hD]
  norm_num

/-- C5 amended: boolean evidence is routed through the per-policy
counters: a deleted boolean element contributes (1, 0) to
(`deletedElements`, `presentElements`); a non-deleted one contributes
0.1 per off-match to `deletedElements` and full weight per on-match to
`presentElements`; `disabledEvidence` receives the `deletedElements`
total only when no element is present, while `enabledEvidence` receives
`presentElements` whenever it is positive. -/
theorem claim5_boolean_evidence_via_counters :
    ∀ (source : Processing.PSource) (p : AdmxPolicy) (base : BasePolicyElement)
      (affected : PolicyRegistryList),
      (source.willDeleteValue (elemKeyOf p.registryKey base) base.registryValue = true →
        Processing.elemDelta source p.registryKey (.boolean base affected) = (1, 0)) ∧
      (source.willDeleteValue (elemKeyOf p.registryKey base) base.registryValue = false →
        Processing.elemDelta source p.registryKey (.boolean base affected) =
          ((Processing.checkOneValQ source affected.offValue (elemKeyOf p.registryKey base)
              base.registryValue
            + Processing.checkValListQ source affected.offValueList
                (elemKeyOf p.registryKey base)) * (1 / 10),
           Processing.checkOneValQ source affected.onValue (elemKeyOf p.registryKey base)
              base.registryValue
            + Processing.checkValListQ source affected.onValueList
                (elemKeyOf p.registryKey base))) ∧
      (0 < Processing.presentElements source p →
        Processing.disabledEvidence source p = Processing.mainDisabledEvidence source p ∧
        Processing.enabledEvidence source p =
          Processing.mainEnabledEvidence source p + Processing.presentElements source p) ∧
      (Processing.presentElements source p = 0 →
        0 < Processing.deletedElements source p →
        Processing.disabledEvidence source p =
          Processing.mainDisabledEvidence source p + Processing.deletedElements source p) := by
  intro source p base affected
  refine ⟨?_, ?_, ?_, ?_⟩
  · intro h
    simp [Processing.elemDelta, PolicyElement.base, h]
  · intro h
    simp [Processing.elemDelta, PolicyElement.base, h]
  · intro hp
    constructor
    · rw [Processing.disabledEvidence, if_pos hp, add_zero]
    · rw [Processing.enabledEvidence, if_pos hp]
  · intro hp hd
    rw [Processing.disabledEvidence, if_neg (by rw [hp]; exact lt_irrefl 0), if_pos hd]

/-- C5 amended witness at a concrete input. -/
theorem claim5_boolean_evidence_witness :
    c5src.willDeleteValue (elemKeyOf "K" ⟨"B", "", "BVal"⟩) "BVal" = true ∧
    Processing.elemDelta c5src "K" (.boolean ⟨"B", "", "BVal"⟩ .empty) = (1, 0) ∧
    0 < Processing.presentElements c5src c5pol ∧
    Processing.disabledEvidence c5src c5pol = Processing.mainDisabledEvidence c5src c5pol := by
  have hdel : c5src.willDeleteValue (elemKeyOf "K" ⟨"B", "", "BVal"⟩) "BVal" = true := by
    decide
  have hpres : 0 < Processing.presentElements c5src c5pol := by
    have h1 : Processing.presentElements c5src c5pol = 1 := by
      have hTB : ("TVal" : String) = "BVal" ↔ False := by
        constructor
        · intro hh; exact absurd hh (by decide)
        · intro hh; exact hh.elim
      norm_num [Processing.presentElements, Processing.elemDelta, c5src, c5pol, elemKeyOf,
        PolicyElement.base, Processing.checkOneValQ, Processing.checkValListQ,
        PolicyRegistryList.empty, hTB]
    rw [h1]; norm_num
  have h2 := (claim5_boolean_evidence_via_counters c5src c5pol ⟨"B", "", "BVal"⟩ .empty).1
    (by simpa [c5pol] using hdel)
  have h3 := ((claim5_boolean_evidence_via_counters c5src c5pol ⟨"B", "", "BVal"⟩
    .empty).2.2.1 hpres).1
  exact ⟨hdel, by simpa [c5pol] using h2, hpres, h3⟩

/-! Byte-level helpers shared by the two policy-file codecs.  Bytes are
`Nat` values below 256 by construction of every serializer; parsers read
arbitrary byte lists. -/

/-- UTF-16 code units of one character (Go `utf16.Encode` on one rune; a
Lean `Char` is always a Unicode scalar value, so the Go replacement-char
branch for invalid runes is unreachable). -/
def utf16EncodeChar (c : Char) : List Nat :=
  let n := c.toNat
  if n < 0x10000 then [n]
  else
    let m := n - 0x10000
    [0xD800 + m / 0x400, 0xDC00 + m % 0x400]

/-- Go `utf16.Encode([]rune(s))`. -/
def utf16Encode (s : String) : List Nat :=
  s.data.flatMap utf16EncodeChar

/-- The Unicode replacement character produced by `utf16.Decode` for
unpaired surrogates. -/
def replChar : Char := Char.ofNat 0xFFFD

/-- Whether a code unit is a high (leading) surrogate. -/
def isHighSurrogate (u : Nat) : Bool := 0xD800 ≤ u && u < 0xDC00

/-- Whether a code unit is a low (trailing) surrogate. -/
def isLowSurrogate (u : Nat) : Bool := 0xDC00 ≤ u && u < 0xE000

/-- Go `utf16.Decode`: pair surrogates, replace unpaired ones. -/
def utf16DecodeUnits : List Nat → List Char
  | [] => []
  | [u] =>
      if isHighSurrogate u || isLowSurrogate u then [replChar]
      else [Char.ofNat (u % 0x10000)]
  | u :: u2 :: rest2 =>
      if isHighSurrogate u then
        if isLowSurrogate u2 then
          Char.ofNat (0x10000 + (u - 0xD800) * 0x400 + (u2 - 0xDC00))
            :: utf16DecodeUnits rest2
        else replChar :: utf16DecodeUnits (u2 :: rest2)
      else if isLowSurrogate u then replChar :: utf16DecodeUnits (u2 :: rest2)
      else Char.ofNat (u % 0x10000) :: utf16DecodeUnits (u2 :: rest2)

/-- Little-endian bytes of a 16-bit value. -/
def u16le (v : Nat) : List Nat := [v % 256, v / 256 % 256]

/-- Little-endian bytes of a 32-bit value. -/
def u32le (v : Nat) : List Nat :=
  [v % 256, v / 256 % 256, v / 2 ^ 16 % 256, v / 2 ^ 24 % 256]

/-- Read a little-endian 16-bit value (Go `binary.Read` into a `uint16`;
`none` is the end-of-input error). -/
def readU16 : List Nat → Option (Nat × List Nat)
  | b0 :: b1 :: rest => some (b0 + 256 * b1, rest)
  | _ => none

/-- Read a little-endian 32-bit value. -/
def readU32 : List Nat → Option (Nat × List Nat)
  | b0 :: b1 :: b2 :: b3 :: rest =>
      some (b0 + 256 * b1 + 2 ^ 16 * b2 + 2 ^ 24 * b3, rest)
  | _ => none

/-- Read 16-bit code units until a zero unit (the null terminator is
consumed and not returned); `none` when the input ends first. -/
def readUnitsUntilZero : List Nat → Option (List Nat × List Nat)
  | b0 :: b1 :: rest =>
      let u := b0 + 256 * b1
      if u = 0 then some ([], rest)
      else
        match readUnitsUntilZero rest with
        | some (us, r) => some (u :: us, r)
        | none => none
  | _ => none

/-- Group bytes into little-endian 16-bit units (`len/2` units; a trailing
odd byte is dropped, as in the Go slice conversion). -/
def bytesToUnits : List Nat → List Nat
  | b0 :: b1 :: rest => (b0 + 256 * b1) :: bytesToUnits rest
  | _ => []

/-- Go `fmt.Sprintf("%v", data)` on store values (the string fallback of
the `SetValue` conversions; only scalar shapes are exercised by claims). -/
def GoValue.goFmt : GoValue → String
  | .str s => s
  | .dword n => toString n
  | .intv n => toString n
  | .qword n => toString n
  | .multi ss => "[" ++ String.intercalate " " ss ++ "]"
  | .bytes _ => "[]"

/-- A file system: path contents addressed by name (`none` = no file). -/
def FS := String → Option (List Nat)

/-- Point update of the file system. -/
def FS.update (fs : FS) (path : String) (content : Option (List Nat)) : FS :=
  fun q => if q = path then content else fs q

namespace PolSlice

/-- part_001 `PolEntry`. -/
structure PolEntry where
  keyName : String
  valueName : String
  type : Nat
  data : List Nat
deriving DecidableEq

/-- part_001 `PolFile`: an ordered entry slice plus the backing path. -/
structure PolFile where
  entries : List PolEntry
  path : String
deriving DecidableEq

/-- The 8-byte header `"PReg\x01\x00\x00\x00"`. -/
def polHeaderBytes : List Nat := [0x50, 0x52, 0x65, 0x67, 1, 0, 0, 0]

/-- part_001 `writeUTF16String`/`encodeUTF16String`: UTF-16LE bytes plus a
2-byte null terminator. -/
def writeUTF16StringBytes (s : String) : List Nat :=
  (utf16Encode s).flatMap u16le ++ [0, 0]

/-- The byte block one entry contributes to `Save` (note the asymmetric
1-byte `[` introduced by `WriteByte`). -/
def entryBytes (e : PolEntry) : List Nat :=
  [0x5B] ++ writeUTF16StringBytes e.keyName ++ [0x3B, 0]
    ++ writeUTF16StringBytes e.valueName ++ [0x3B, 0]
    ++ u32le e.type ++ [0x3B, 0]
    ++ u32le e.data.length ++ [0x3B, 0]
    ++ e.data ++ [0x5D, 0]

/-- The full byte image `Save` builds in its memory buffer. -/
def serialize (p : PolFile) : List Nat :=
  polHeaderBytes ++ p.entries.flatMap entryBytes

/-- part_001 `PolFile.DeleteValue` (exact-match filter). -/
def PolFile.deleteValue (p : PolFile) (keyPath valueName : String) : PolFile :=
  { p with entries :=
      p.entries.filter (fun e => !(e.keyName == keyPath && e.valueName == valueName)) }

/-- part_001 `PolFile.ClearKey`. -/
def PolFile.clearKey (p : PolFile) (keyPath : String) : PolFile :=
  { p with entries := p.entries.filter (fun e => !(e.keyName == keyPath)) }

/-- part_001 `PolFile.ContainsValue`. -/
def PolFile.containsValue (p : PolFile) (keyPath valueName : String) : Bool :=
  p.entries.any (fun e => e.keyName == keyPath && e.valueName == valueName)

/-- part_001 `PolFile.SetValue`: delete the old entry, then append the new
one with the Windows type code and encoded payload; a data value of the
wrong dynamic shape for DWORD/MultiString is an error. -/
def PolFile.setValue (p : PolFile) (keyPath valueName : String) (data : GoValue)
    (valueType : Nat) : PolFile × Option String :=
  let p1 := p.deleteValue keyPath valueName
  let append := fun (regType : Nat) (rawData : List Nat) =>
    ({ p1 with entries := p1.entries ++ [⟨keyPath, valueName, regType, rawData⟩] },
     (none : Option String))
  match valueType with
  | 0 =>
      append 1 (writeUTF16StringBytes (match data with | .str s => s | d => d.goFmt))
  | 1 =>
      append 2 (writeUTF16StringBytes (match data with | .str s => s | d => d.goFmt))
  | 2 =>
      match data with
      | .dword n => append 4 (u32le n)
      | .qword n => append 4 (u32le (n % 2 ^ 32))
      | .intv n => append 4 (u32le (Processing.toUint32 n))
      | _ => (p1, some "invalid data type for DWORD")
  | 3 =>
      match data with
      | .multi ss => append 7 ((ss.flatMap writeUTF16StringBytes) ++ [0, 0])
      | _ => (p1, some "invalid data type for MultiString")
  | _ => (p1, some "unsupported registry type")

/-- part_001 `PolFile.Save` over the file-system model.  `mkdirFails`
models a `MkdirAll` failure, `writeFailAt` a `WriteFile` failure after the
given number of bytes reached the temporary file, and `renameFails` a
failing final `Rename` (after which the temporary file is removed). -/
def save (fs : FS) (p : PolFile) (mkdirFails : Bool) (writeFailAt : Option Nat)
    (renameFails : Bool) : FS × Option String :=
  if mkdirFails then (fs, some "pol directory could not be created")
  else
    let out := serialize p
    let tmpPath := p.path ++ ".tmp"
    match writeFailAt with
    | some k =>
        if k < out.length then
          (fs.update tmpPath (some (out.take k)), some "pol file could not be written")
        else
          if renameFails then
            ((fs.update tmpPath (some out)).update tmpPath none,
             some "pol file could not be saved")
          else
            (((fs.update tmpPath (some out)).update tmpPath none).update p.path (some out),
             none)
    | none =>
        if renameFails then
          ((fs.update tmpPath (some out)).update tmpPath none,
           some "pol file could not be saved")
        else
          (((fs.update tmpPath (some out)).update tmpPath none).update p.path (some out),
           none)

/-- The entry loop of part_001 `LoadPolFile` (single-byte bracket reads,
single-byte semicolon reads with ignored errors, checked 32-bit reads).
`fuel` dominates the list length; every iteration consumes at least one
byte. -/
def parseEntries (path : String) : Nat → List Nat → Except String (List PolEntry)
  | _, [] => .ok []
  | 0, _ => .error "out of fuel"
  | fuel + 1, b :: rest =>
      if b ≠ 0x5B then .error "unexpected byte"
      else
        match readUnitsUntilZero rest with
        | none => .error "key could not be read"
        | some (keyUnits, r1) =>
            let r2 := r1.drop 1
            match readUnitsUntilZero r2 with
            | none => .error "value could not be read"
            | some (valUnits, r3) =>
                let r4 := r3.drop 1
                match readU32 r4 with
                | none => .error "type could not be read"
                | some (regType, r5) =>
                    let r6 := r5.drop 1
                    match readU32 r6 with
                    | none => .error "size could not be read"
                    | some (dataSize, r7) =>
                        let r8 := r7.drop 1
                        if dataSize > r8.length then .error "data could not be read"
                        else
                          let entryData := r8.take dataSize
                          let r9 := (r8.drop dataSize).drop 1
                          match parseEntries path fuel r9 with
                          | .ok es =>
                              .ok (⟨⟨utf16DecodeUnits keyUnits⟩,
                                    ⟨utf16DecodeUnits valUnits⟩, regType, entryData⟩ :: es)
                          | .error e => .error e

/-- The body of part_001 `LoadPolFile` on in-memory bytes. -/
def parsePolBytes (path : String) (data : List Nat) : Except String PolFile :=
  if data.length < 8 then .error "invalid pol file: too short"
  else if data.take 8 ≠ polHeaderBytes then .error "invalid pol header"
  else
    match parseEntries path (data.length + 1) (data.drop 8) with
    | .ok es => .ok ⟨es, path⟩
    | .error e => .error e

/-- part_001 `LoadPolFile`: a missing file yields an empty store and no
error; any other content is parsed strictly. -/
def loadPolFile (fs : FS) (path : String) : Except String PolFile :=
  match fs path with
  | none => .ok ⟨[], path⟩
  | some data => parsePolBytes path data

/-- part_001/part_004 `GetPolPath` (the `SystemRoot` environment variable
as a parameter). -/
def getPolPath (systemRoot : String) (sect : AdmxPolicySection) :
    Except String String :=
  let sr := if systemRoot == "" then "C:\\Windows" else systemRoot
  let basePath := sr ++ "\\System32\\GroupPolicy"
  match sect with
  | .user => .ok (basePath ++ "\\User\\Registry.pol")
  | .machine => .ok (basePath ++ "\\Machine\\Registry.pol")
  | .both => .error "invalid section"

end PolSlice

/-- The empty file system. -/
def FS.empty : FS := fun _ => none

namespace Structures

/-- structures.go `writePolValue` (errors of the underlying `SetValue`
are discarded; the function always reports success). -/
def writePolValue (pol : PolSlice.PolFile) (value : PolicyRegistryValue)
    (key valueName : String) : PolSlice.PolFile :=
  match value.registryType with
  | .delete => pol.deleteValue key valueName
  | .numeric => (pol.setValue key valueName (.dword value.numberValue) 2).1
  | .text => (pol.setValue key valueName (.str value.stringValue) 0).1

/-- structures.go `applyPolValueList`. -/
def applyPolValueList (pol : PolSlice.PolFile) (list : PolicyRegistrySingleList)
    (defaultKey : String) : PolSlice.PolFile :=
  let listKey := if list.defaultRegistryKey ≠ "" then list.defaultRegistryKey else defaultKey
  list.affectedValues.foldl
    (fun pol entry =>
      let entryKey := if entry.registryKey ≠ "" then entry.registryKey else listKey
      match entry.value with
      | none => pol
      | some v => writePolValue pol v entryKey entry.registryValue) pol

/-- structures.go `applyPolRegistryList`. -/
def applyPolRegistryList (pol : PolSlice.PolFile) (regList : PolicyRegistryList)
    (defaultKey defaultValue : String) (isOn : Bool) : PolSlice.PolFile :=
  let value := if isOn then regList.onValue else regList.offValue
  let valueList := if isOn then regList.onValueList else regList.offValueList
  let pol1 :=
    match value with
    | none => pol
    | some v => writePolValue pol v defaultKey defaultValue
  match valueList with
  | none => pol1
  | some l => applyPolValueList pol1 l defaultKey

/-- The per-element write of structures.go `updatePolEnabled` (all
element-level `SetValue` errors are ignored there). -/
def updatePolElemEnabled (pol : PolSlice.PolFile) (defaultKey : String)
    (elem : PolicyElement) (v : OptVal) : PolSlice.PolFile :=
  let elemKey := elemKeyOf defaultKey elem.base
  match elem with
  | .decimal base _ _ _ storeAsText =>
      if storeAsText then (pol.setValue elemKey base.registryValue (.str v.goFmt) 0).1
      else (pol.setValue elemKey base.registryValue (.dword v.asDword) 2).1
  | .boolean base affected =>
      let checkState := v.asBool
      let pol1 :=
        if affected.onValue = none ∧ checkState then
          (pol.setValue elemKey base.registryValue (.dword 1) 2).1
        else pol
      let pol2 :=
        if affected.offValue = none ∧ ¬checkState then
          pol1.deleteValue elemKey base.registryValue
        else pol1
      applyPolRegistryList pol2 affected elemKey base.registryValue checkState
  | .text base _ _ regExpandSz =>
      (pol.setValue elemKey base.registryValue (.str v.asStr)
        (if regExpandSz then 1 else 0)).1
  | .list base hasPfx noPurgeOthers regExpandSz userProvidesNames =>
      let pol1 := if ¬noPurgeOthers then pol.clearKey elemKey else pol
      let regType := if regExpandSz then 1 else 0
      if userProvidesNames then
        match v.asDict with
        | some d =>
            d.foldl (fun pol kv => (pol.setValue elemKey kv.1 (.str kv.2) regType).1) pol1
        | none => pol1
      else
        match v.asStrs with
        | some items =>
            items.enum.foldl
              (fun pol it =>
                let valueName :=
                  if hasPfx ∧ base.registryValue ≠ "" then
                    base.registryValue ++ toString (it.1 + 1)
                  else toString (it.1 + 1)
                (pol.setValue elemKey valueName (.str it.2) regType).1) pol1
        | none => pol1
  | .enum base _ items =>
      match v with
      | .intv idx =>
          if 0 ≤ idx ∧ idx < items.length then
            match items.get? idx.toNat with
            | some item =>
                let pol1 :=
                  match item.value with
                  | none => pol
                  | some pv => writePolValue pol pv elemKey base.registryValue
                match item.valueList with
                | none => pol1
                | some l => applyPolValueList pol1 l elemKey
            | none => pol
          else pol
      | _ => pol
  | .multiText base =>
      match v with
      | .strs strs => (pol.setValue elemKey base.registryValue (.multi strs) 3).1
      | _ => pol

/-- structures.go `updatePolEnabled` followed by `pol.Save()`; a failing
main-value write returns before the save. -/
def updatePolEnabled (fs : FS) (pol : PolSlice.PolFile) (p : AdmxPolicy)
    (options : Options) (mk : Bool) (wf : Option Nat) (rf : Bool) : FS × Option String :=
  let main :=
    if p.affectedValues.onValue = none ∧ p.registryValue ≠ "" then
      pol.setValue p.registryKey p.registryValue (.dword 1) 2
    else (pol, none)
  match main with
  | (_, some e) => (fs, some e)
  | (pol1, none) =>
      let pol2 := applyPolRegistryList pol1 p.affectedValues p.registryKey p.registryValue true
      let pol3 := p.elements.foldl
        (fun pol elem =>
          match Options.lookup options elem.base.id with
          | none => pol
          | some v => updatePolElemEnabled pol p.registryKey elem v) pol2
      PolSlice.save fs pol3 mk wf rf

/-- structures.go `updatePolDisabled` followed by `pol.Save()` (with a
parser-built policy the `AffectedValues` branch is always taken, so the
`DWORD 0` fallback write is dead). -/
def updatePolDisabled (fs : FS) (pol : PolSlice.PolFile) (p : AdmxPolicy)
    (mk : Bool) (wf : Option Nat) (rf : Bool) : FS × Option String :=
  let pol1 := applyPolRegistryList pol p.affectedValues p.registryKey p.registryValue false
  let pol2 := p.elements.foldl
    (fun pol elem =>
      pol.deleteValue (elemKeyOf p.registryKey elem.base) elem.base.registryValue) pol1
  PolSlice.save fs pol2 mk wf rf

/-- structures.go `updatePolNotConfigured` followed by `pol.Save()`. -/
def updatePolNotConfigured (fs : FS) (pol : PolSlice.PolFile) (p : AdmxPolicy)
    (mk : Bool) (wf : Option Nat) (rf : Bool) : FS × Option String :=
  let pol1 :=
    if p.registryValue ≠ "" then pol.deleteValue p.registryKey p.registryValue else pol
  let pol2 := p.elements.foldl
    (fun pol elem =>
      pol.deleteValue (elemKeyOf p.registryKey elem.base) elem.base.registryValue) pol1
  PolSlice.save fs pol2 mk wf rf

/-- structures.go `updatePolFile`: resolve the path, load (or create) the
.pol store, apply the state-specific mirror update, save. -/
def updatePolFile (fs : FS) (env : String) (sect : AdmxPolicySection) (p : AdmxPolicy)
    (state : PolicyState) (options : Options) (mk : Bool) (wf : Option Nat) (rf : Bool) :
    FS × Option String :=
  match PolSlice.getPolPath env sect with
  | .error e => (fs, some e)
  | .ok polPath =>
      match PolSlice.loadPolFile fs polPath with
      | .error e => (fs, some ("pol file could not be loaded: " ++ e))
      | .ok pol =>
          match state with
          | .enabled => updatePolEnabled fs pol p options mk wf rf
          | .disabled => updatePolDisabled fs pol p mk wf rf
          | .notConfigured => updatePolNotConfigured fs pol p mk wf rf
          | .unknown => (fs, none)

/-- The root registry key of a `RegistryPolicySource`. -/
inductive RootKey where
  | currentUser
  | localMachine
  | other
deriving DecidableEq

/-- The state switch at the top of structures.go `SetPolicyState` (the
registry-backend phase; an unhandled state is an immediate error). -/
def regPhase {σ : Type} (S : Sink σ) (st : σ) (p : AdmxPolicy) (state : PolicyState)
    (options : Options) : σ × Option String :=
  match state with
  | .enabled => setPolicyEnabled S st p options
  | .disabled => setPolicyDisabled S st p
  | .notConfigured => setPolicyNotConfigured S st p
  | .unknown => (st, some "invalid state")

/-- structures.go `SetPolicyState`: registry backend first; on its failure
the error is returned and the .pol file is untouched; on success the .pol
mirror update runs, and its failure only raises a warning (the Bool in
the result) while the call still succeeds. -/
def SetPolicyStateFull {σ : Type} (S : Sink σ) (st : σ) (isRegistrySource : Bool)
    (rootKey : RootKey) (p : AdmxPolicy) (state : PolicyState) (options : Options)
    (fs : FS) (env : String) (mk : Bool) (wf : Option Nat) (rf : Bool) :
    σ × FS × Bool × Option String :=
  match regPhase S st p state options with
  | (st', some e) => (st', fs, false, some e)
  | (st', none) =>
      if isRegistrySource then
        match rootKey with
        | .currentUser =>
            match updatePolFile fs env .user p state options mk wf rf with
            | (fs', some _) => (st', fs', true, none)
            | (fs', none) => (st', fs', false, none)
        | .localMachine =>
            match updatePolFile fs env .machine p state options mk wf rf with
            | (fs', some _) => (st', fs', true, none)
            | (fs', none) => (st', fs', false, none)
        | .other => (st', fs, false, none)
      else (st', fs, false, none)

end Structures

/-- C6: the live registry backend is written first; if that write fails
the call returns the error with the .pol file system untouched and no
warning; if it succeeds, the mirrored .pol update's failure is reported
only as a warning and the call still returns success. -/
theorem claim6_registry_first_pol_warn :
    ∀ {σ : Type} (S : Structures.Sink σ) (st : σ) (isReg : Bool)
      (rk : Structures.RootKey) (p : AdmxPolicy) (state : PolicyState)
      (options : Options) (fs : FS) (env : String) (mk : Bool) (wf : Option Nat)
      (rf : Bool),
      (∀ e, (Structures.regPhase S st p state options).2 = some e →
        Structures.SetPolicyStateFull S st isReg rk p state options fs env mk wf rf
          = ((Structures.regPhase S st p state options).1, fs, false, some e)) ∧
      ((Structures.regPhase S st p state options).2 = none →
        (Structures.SetPolicyStateFull S st isReg rk p state options fs env mk wf
            rf).2.2.2 = none ∧
        (Structures.SetPolicyStateFull S st isReg rk p state options fs env mk wf
            rf).1 = (Structures.regPhase S st p state options).1) := by
  intro σ S st isReg rk p state options fs env mk wf rf
  constructor
  · intro e he
    unfold Structures.SetPolicyStateFull
    rcases hr : Structures.regPhase S st p state options with ⟨st', err⟩
    rw [hr] at he
    simp only at he
    subst he
    rfl
  · intro hok
    unfold Structures.SetPolicyStateFull
    rcases hr : Structures.regPhase S st p state options with ⟨st', err⟩
    rw [hr] at hok
    simp only at hok
    subst hok
    cases isReg
    · exact ⟨rfl, rfl⟩
    · cases rk
      · rcases Structures.updatePolFile fs env .user p state options mk wf rf with ⟨fs', w⟩
        cases w <;> exact ⟨rfl, rfl⟩
      · rcases Structures.updatePolFile fs env .machine p state options mk wf rf
          with ⟨fs', w⟩
        cases w <;> exact ⟨rfl, rfl⟩
      · exact ⟨rfl, rfl⟩

/-- A sink whose every operation fails (a permission-denied registry). -/
def failSink : Structures.Sink MemStore :=
  { setValue := fun st _ _ _ _ => (st, some "denied")
    deleteValue := fun st _ _ => (st, some "denied")
    clearKey := fun st _ => (st, some "denied") }

/-- The policy of the C6 test case. -/
def c6pol : AdmxPolicy := ⟨"K", "Main", .empty, []⟩

/-- C6 witness: at a concrete input the failing registry write aborts the
call with the .pol file system untouched, and a successful registry write
yields overall success. -/
theorem claim6_registry_first_pol_warn_witness :
    (Structures.regPhase failSink (⟨[]⟩ : MemStore) c6pol .enabled []).2 = some "denied" ∧
    Structures.SetPolicyStateFull failSink (⟨[]⟩ : MemStore) true .currentUser c6pol
        .enabled [] FS.empty "" false none false
      = ((Structures.regPhase failSink (⟨[]⟩ : MemStore) c6pol .enabled []).1, FS.empty,
         false, some "denied") ∧
    (Structures.regPhase MemStore.sink (⟨[]⟩ : MemStore) c6pol .notConfigured []).2
        = none ∧
    (Structures.SetPolicyStateFull MemStore.sink (⟨[]⟩ : MemStore) true .currentUser c6pol
        .notConfigured [] FS.empty "" false none false).2.2.2 = none := by
  refine ⟨by decide, ?_, by decide, ?_⟩
  · exact (claim6_registry_first_pol_warn failSink ⟨[]⟩ true .currentUser c6pol .enabled []
      FS.empty "" false none false).1 "denied" (by decide)
  · exact ((claim6_registry_first_pol_warn MemStore.sink ⟨[]⟩ true .currentUser c6pol
      .notConfigured [] FS.empty "" false none false).2 (by decide)).1

/-- ASCII lowercasing of one character. -/
def goLowerChar (c : Char) : Char :=
  if 'A' ≤ c ∧ c ≤ 'Z' then Char.ofNat (c.toNat + 32) else c

/-- Go `strings.ToLower`.  Modelled per character; every name in the
statements below is ASCII, where this agrees with Go's Unicode-aware
implementation, and the round-trip theorem uses only that it is a
function. -/
def goToLower (s : String) : String := ⟨s.data.map goLowerChar⟩

/-- Go `strings.HasPrefix(s, "**")` (and the equivalent hand-rolled index
checks of the element reader). -/
def startsWithStars (s : String) : Bool :=
  match s.data with
  | '*' :: '*' :: _ => true
  | _ => false

/-- Go `strings.EqualFold`, modelled as equality after lowering. -/
def goEqualFold (a b : String) : Bool := goToLower a == goToLower b

/-- Little-endian bytes of a 64-bit value. -/
def u64le (v : Nat) : List Nat :=
  [v % 256, v / 2 ^ 8 % 256, v / 2 ^ 16 % 256, v / 2 ^ 24 % 256,
   v / 2 ^ 32 % 256, v / 2 ^ 40 % 256, v / 2 ^ 48 % 256, v / 2 ^ 56 % 256]

namespace PolCodec

/-- pol_file.go `polEntryData`: the Windows value-type code and the raw
payload bytes. -/
structure PolEntryData where
  kind : Nat
  data : List Nat
deriving DecidableEq

/-- pol_file.go `PolFile`: both Go maps are modelled as association lists
with distinct keys by construction (`entries`: lowercased dict-key to
payload; `casePreservation`: lowercased dict-key to first-seen original
casing). -/
structure PolFile where
  entries : List (String × PolEntryData)
  casePreservation : List (String × String)
deriving DecidableEq

/-- pol_file.go `NewPolFile`. -/
def emptyPolFile : PolFile := ⟨[], []⟩

/-- Go map read. -/
def alGet? {α : Type} (l : List (String × α)) (k : String) : Option α :=
  (l.find? (fun e => e.1 == k)).map Prod.snd

/-- Go map write (replace in place or append). -/
def alSet {α : Type} (l : List (String × α)) (k : String) (v : α) : List (String × α) :=
  if (l.find? (fun e => e.1 == k)).isSome then
    l.map (fun e => if e.1 == k then (k, v) else e)
  else l ++ [(k, v)]

/-- Split a character list at the first occurrence of the two-character
separator `\\` (Go `strings.SplitN(s, "\\\\", 2)`). -/
def splitOnSepChars : List Char → Option (List Char × List Char)
  | '\\' :: '\\' :: rest => some ([], rest)
  | c :: rest => (splitOnSepChars rest).map (fun ab => (c :: ab.1, ab.2))
  | [] => none

/-- Go `strings.SplitN(s, "\\\\", 2)`: the two parts and whether the
separator was found (when absent, Go returns the one-element slice). -/
def goSplitN2 (s : String) : String × String × Bool :=
  match splitOnSepChars s.data with
  | some (a, b) => (⟨a⟩, ⟨b⟩, true)
  | none => (s, "", false)

/-- pol_file.go `getDictKey`: the lowercased dictionary key, recording the
original casing on first sight. -/
def getDictKey (p : PolFile) (key value : String) : PolFile × String :=
  let origCase := key ++ "\\\\" ++ value
  let lowerCase := goToLower origCase
  if (alGet? p.casePreservation lowerCase).isSome then (p, lowerCase)
  else ({ p with casePreservation := p.casePreservation ++ [(lowerCase, origCase)] },
        lowerCase)

/-- pol_file.go `asString`: UTF-16LE until the first null unit. -/
def PolEntryData.asString (e : PolEntryData) : String :=
  if e.data.length < 2 then ""
  else ⟨utf16DecodeUnits ((bytesToUnits e.data).takeWhile (fun u => u ≠ 0))⟩

/-- pol_file.go `asDword`. -/
def PolEntryData.asDword (e : PolEntryData) : Nat :=
  match e.data with
  | b0 :: b1 :: b2 :: b3 :: _ => b0 + 256 * b1 + 2 ^ 16 * b2 + 2 ^ 24 * b3
  | _ => 0

/-- pol_file.go `asQword`. -/
def PolEntryData.asQword (e : PolEntryData) : Nat :=
  match e.data with
  | b0 :: b1 :: b2 :: b3 :: b4 :: b5 :: b6 :: b7 :: _ =>
      b0 + 2 ^ 8 * b1 + 2 ^ 16 * b2 + 2 ^ 24 * b3
        + 2 ^ 32 * b4 + 2 ^ 40 * b5 + 2 ^ 48 * b6 + 2 ^ 56 * b7
  | _ => 0

/-- The accumulator loop of pol_file.go `asMultiString` (strings end at a
null unit; an empty string terminates the list; a trailing unterminated
run is dropped). -/
def multiSzUnits : List Nat → List Nat → List String
  | [], _ => []
  | 0 :: rest, current =>
      if current = [] then []
      else (⟨utf16DecodeUnits current⟩ : String) :: multiSzUnits rest []
  | c :: rest, current => multiSzUnits rest (current ++ [c])

/-- pol_file.go `asMultiString`. -/
def PolEntryData.asMultiString (e : PolEntryData) : List String :=
  if e.data.length < 2 then []
  else multiSzUnits (bytesToUnits e.data) []

/-- pol_file.go `asArbitrary` (SZ = 1, EXPAND_SZ = 2, DWORD = 4,
QWORD = 11, MULTI_SZ = 7; anything else returns the raw bytes). -/
def PolEntryData.asArbitrary (e : PolEntryData) : GoValue :=
  if e.kind = 1 ∨ e.kind = 2 then .str e.asString
  else if e.kind = 4 then .dword e.asDword
  else if e.kind = 11 then .qword e.asQword
  else if e.kind = 7 then .multi e.asMultiString
  else .bytes e.data

/-- pol_file.go `GetValue` (the value and its type code; `none` is the
"value not found" error).  The `getDictKey` bookkeeping side effect on
`casePreservation` is unobservable through any read and is dropped. -/
def PolFile.getValue (p : PolFile) (key value : String) : Option (GoValue × Nat) :=
  let dictKey := goToLower (key ++ "\\\\" ++ value)
  (alGet? p.entries dictKey).map (fun e => (e.asArbitrary, e.kind))

/-- pol_file.go `ContainsValue`. -/
def PolFile.containsValue (p : PolFile) (key value : String) : Bool :=
  let dictKey := goToLower (key ++ "\\\\" ++ value)
  (alGet? p.entries dictKey).isSome

/-- pol_file.go `GetValueNames`: every non-pseudo (`**`-prefixed) value
name whose key matches case-insensitively, in entry order. -/
def PolFile.getValueNames (p : PolFile) (key : String) : List String :=
  let keyLower := goToLower key
  p.entries.filterMap (fun e =>
    let casedKey := (alGet? p.casePreservation e.1).getD ""
    let parts := goSplitN2 casedKey
    if parts.2.2 then
      if goEqualFold parts.1 keyLower ∧ ¬startsWithStars parts.2.1 then some parts.2.1
      else none
    else none)

/-- One bracketed entry of the on-disk format, pol_file.go `readEntry`:
2-byte delimiters, null-terminated UTF-16LE names, 32-bit type and
length, raw payload.  A zero unit in place of the second semicolon is
tolerated once. -/
def readEntry (bs : List Nat) : Except String ((String × String × PolEntryData) × List Nat) :=
  match readU16 bs with
  | none => .error "EOF"
  | some (bracket, r1) =>
      if bracket ≠ 0x5B then .error "expected open bracket"
      else
        match readUnitsUntilZero r1 with
        | none => .error "key name"
        | some (keyUnits, r2) =>
            match readU16 r2 with
            | none => .error "semicolon"
            | some (semi1, r3) =>
                if semi1 ≠ 0x3B then .error "expected semicolon"
                else
                  match readUnitsUntilZero r3 with
                  | none => .error "value name"
                  | some (valUnits, r4) =>
                      match readU16 r4 with
                      | none => .error "semicolon"
                      | some (semi2a, r5) =>
                          let next :=
                            if semi2a = 0 then
                              match readU16 r5 with
                              | none => Except.error "semicolon"
                              | some (semi2b, r6) => Except.ok (semi2b, r6)
                            else Except.ok (semi2a, r5)
                          match next with
                          | .error e => .error e
                          | .ok (semi2, r6) =>
                              if semi2 ≠ 0x3B then .error "expected semicolon"
                              else
                                match readU32 r6 with
                                | none => .error "type"
                                | some (regType, r7) =>
                                    match readU16 r7 with
                                    | none => .error "semicolon"
                                    | some (semi3, r8) =>
                                        if semi3 ≠ 0x3B then .error "expected semicolon"
                                        else
                                          match readU32 r8 with
                                          | none => .error "length"
                                          | some (length, r9) =>
                                              match readU16 r9 with
                                              | none => .error "semicolon"
                                              | some (semi4, r10) =>
                                                  if semi4 ≠ 0x3B then
                                                    .error "expected semicolon"
                                                  else if length > r10.length then
                                                    .error "data"
                                                  else
                                                    let data := r10.take length
                                                    let r11 := r10.drop length
                                                    match readU16 r11 with
                                                    | none => .error "close bracket"
                                                    | some (closeB, r12) =>
                                                        if closeB ≠ 0x5D then
                                                          .error "expected close bracket"
                                                        else
                                                          .ok ((⟨utf16DecodeUnits keyUnits⟩,
                                                                ⟨utf16DecodeUnits valUnits⟩,
                                                                ⟨regType, data⟩), r12)

/-- The entry loop of pol_file.go `LoadFromReader` (`io.EOF` at an entry
boundary ends the loop; `fuel` dominates the byte count, every entry
consuming at least one byte). -/
def loadLoop : Nat → PolFile → List Nat → Except String PolFile
  | _, p, [] => .ok p
  | 0, _, _ => .error "out of fuel"
  | fuel + 1, p, bs =>
      match readEntry bs with
      | .error e => .error e
      | .ok ((k, v, d), rest) =>
          let pk := getDictKey p k v
          loadLoop fuel { pk.1 with entries := alSet pk.1.entries pk.2 d } rest

/-- pol_file.go `LoadFromReader`: 4-byte magic `PReg`, 4-byte version 1,
then entries. -/
def loadFromReader (bs : List Nat) : Except String PolFile :=
  match readU32 bs with
  | none => .error "failed to read signature"
  | some (sig, r1) =>
      if sig ≠ 0x67655250 then .error "invalid POL signature"
      else
        match readU32 r1 with
        | none => .error "failed to read version"
        | some (ver, r2) =>
            if ver ≠ 1 then .error "unsupported POL version"
            else loadLoop (r2.length + 1) emptyPolFile r2

/-- pol_file.go `writeEntry`: the byte block of one entry. -/
def writeEntryBytes (keyName valueName : String) (entry : PolEntryData) : List Nat :=
  u16le 0x5B ++ ((utf16Encode keyName).flatMap u16le ++ [0, 0])
    ++ u16le 0x3B ++ ((utf16Encode valueName).flatMap u16le ++ [0, 0])
    ++ u16le 0x3B ++ u32le entry.kind
    ++ u16le 0x3B ++ u32le entry.data.length
    ++ u16le 0x3B ++ entry.data ++ u16le 0x5D

/-- pol_file.go `SaveToWriter`: header, then entries in sorted dict-key
order, each with the first-seen original casing split back into key and
value name.  `sort.Strings` is modelled by insertion sort: on the
duplicate-free key list of a store both produce the unique sorted
arrangement. -/
def saveToWriter (p : PolFile) : List Nat :=
  u32le 0x67655250 ++ u32le 1
    ++ (List.insertionSort (fun a b => a ≤ b) (p.entries.map Prod.fst)).flatMap
        (fun dictKey =>
          let entry := (alGet? p.entries dictKey).getD ⟨0, []⟩
          let casedKey := (alGet? p.casePreservation dictKey).getD ""
          let parts := goSplitN2 casedKey
          writeEntryBytes parts.1 parts.2.1 entry)

/-- pol_file.go `Load`: a missing file is an error (`os.Open` fails). -/
def load (fs : FS) (path : String) : Except String PolFile :=
  match fs path with
  | none => .error "open failed"
  | some bs => loadFromReader bs

/-- pol_file.go `Save`: `os.Create` truncates the target in place and
`SaveToWriter` streams into it, so a failure after `k` bytes leaves a
partial file at the target path. -/
def save (fs : FS) (path : String) (p : PolFile) (createFails : Bool)
    (writeFailAt : Option Nat) : FS × Option String :=
  if createFails then (fs, some "create failed")
  else
    let out := saveToWriter p
    match writeFailAt with
    | some k =>
        if k < out.length then (fs.update path (some (out.take k)), some "write failed")
        else (fs.update path (some out), none)
    | none => (fs.update path (some out), none)

end PolCodec

theorem FS.update_same (fs : FS) (p : String) (c : Option (List Nat)) :
    (fs.update p c) p = c := by
  simp [FS.update]

theorem FS.update_other (fs : FS) (p : String) (c : Option (List Nat)) (q : String)
    (h : q ≠ p) : (fs.update p c) q = fs q := by
  simp [FS.update, h]

theorem path_ne_tmp (s : String) : s ≠ s ++ ".tmp" := by
  intro h
  have hl := congrArg String.length h
  rw [String.length_append] at hl
  have h4 : (".tmp" : String).length = 4 := by decide
  omega

/-- C7 amended: the slice-based codec's `Save` is atomic — it builds the
full image in memory, writes it to `<path>.tmp`, and renames; on any
failure (directory creation, temporary write, rename) the target path's
previous content is unchanged, and on success it holds exactly the
serialized bytes. -/
theorem claim7_atomic_save :
    ∀ (fs : FS) (p : PolSlice.PolFile) (mk : Bool) (wf : Option Nat) (rf : Bool),
      ((PolSlice.save fs p mk wf rf).2 ≠ none →
        (PolSlice.save fs p mk wf rf).1 p.path = fs p.path) ∧
      ((PolSlice.save fs p mk wf rf).2 = none →
        (PolSlice.save fs p mk wf rf).1 p.path = some (PolSlice.serialize p)) := by
  intro fs p mk wf rf
  have hne : p.path ≠ p.path ++ ".tmp" := path_ne_tmp p.path
  unfold PolSlice.save
  cases mk
  · simp only [Bool.false_eq_true, if_false]
    cases wf with
    | none =>
        cases rf
        · simp only [Bool.false_eq_true, if_false]
          constructor
          · intro h; exact absurd rfl h
          · intro _
            exact FS.update_same _ _ _
        · simp only [if_true]
          constructor
          · intro _
            rw [FS.update_other _ _ _ _ hne, FS.update_other _ _ _ _ hne]
          · intro h; cases h
    | some k =>
        by_cases hk : k < (PolSlice.serialize p).length
        · simp only [hk, if_true]
          constructor
          · intro _
            exact FS.update_other _ _ _ _ hne
          · intro h; cases h
        · simp only [hk, if_false]
          cases rf
          · simp only [Bool.false_eq_true, if_false]
            constructor
            · intro h; exact absurd rfl h
            · intro _
              exact FS.update_same _ _ _
          · simp only [if_true]
            constructor
            · intro _
              rw [FS.update_other _ _ _ _ hne, FS.update_other _ _ _ _ hne]
            · intro h; cases h
  · simp only [if_true]
    constructor
    · intro _; trivial
    · intro h; cases h

/-- A file system holding previous content `[1, 2, 3]` at path `f`. -/
def c7fs : FS := FS.update FS.empty "f" (some [1, 2, 3])

/-- C7 counterexample: the map-based codec's `Save` (pol_file.go) opens
the target with `os.Create` and streams into it; a failure after 0 bytes
leaves a truncated file at the target — the previous content `[1, 2, 3]`
is destroyed, refuting "writes to a temporary path then renames" for
every save. -/
theorem claim7_counterexample :
    (PolCodec.save c7fs "f" PolCodec.emptyPolFile false (some 0)).2 = some "write failed" ∧
    (PolCodec.save c7fs "f" PolCodec.emptyPolFile false (some 0)).1 "f" = some [] ∧
    c7fs "f" = some [1, 2, 3] := by
  refine ⟨by decide, by decide, by decide⟩

/-- C7 amended witness at concrete inputs: a failing save leaves the
(missing) target missing, and a successful save stores the serialized
image. -/
theorem claim7_atomic_save_witness :
    ((PolSlice.save FS.empty ⟨[], "f"⟩ true none false).2 ≠ none ∧
      (PolSlice.save FS.empty ⟨[], "f"⟩ true none false).1 "f" = FS.empty "f") ∧
    ((PolSlice.save FS.empty ⟨[], "f"⟩ false none false).2 = none ∧
      (PolSlice.save FS.empty ⟨[], "f"⟩ false none false).1 "f"
        = some (PolSlice.serialize ⟨[], "f"⟩)) := by
  constructor
  · exact ⟨by decide, (claim7_atomic_save FS.empty ⟨[], "f"⟩ true none false).1 (by decide)⟩
  · exact ⟨by decide, (claim7_atomic_save FS.empty ⟨[], "f"⟩ false none false).2 (by decide)⟩

/-- C8 amended: the slice-based loader (`LoadPolFile`, the one the
Windows mutation path uses) returns an empty store and no error when the
file does not exist. -/
theorem claim8_missing_file_empty_store :
    ∀ (fs : FS) (path : String), fs path = none →
      PolSlice.loadPolFile fs path = .ok ⟨[], path⟩ := by
  intro fs path h
  unfold PolSlice.loadPolFile
  rw [h]

/-- C8 counterexample: the map-based codec's `Load` (pol_file.go)
propagates the `os.Open` failure for a missing file instead of returning
an empty store. -/
theorem claim8_counterexample :
    PolCodec.load FS.empty "C:\\Windows\\System32\\GroupPolicy\\Machine\\Registry.pol"
      = .error "open failed" := by
  rfl

/-- C8 amended witness at a concrete missing path. -/
theorem claim8_missing_file_witness :
    FS.empty "Registry.pol" = none ∧
    PolSlice.loadPolFile FS.empty "Registry.pol" = .ok ⟨[], "Registry.pol"⟩ :=
  ⟨rfl, claim8_missing_file_empty_store FS.empty "Registry.pol" rfl⟩

namespace Reader

/-- The read half of the Windows-variant `PolicySource`
(policy_state_reader_windows.go callers): `getValueNames` returns `none`
where the Go method returns an error. -/
structure RSource where
  containsValue : String → String → Bool
  getValue : String → String → Option GoValue
  getValueNames : String → Option (List String)

/-- policy_state_reader_windows.go `isPolFileValuePresent`. -/
def isPolFileValuePresent (pol : PolCodec.PolFile) (value : PolicyRegistryValue)
    (key valueName : String) : Bool :=
  match pol.getValue key valueName with
  | none => false
  | some (data, _) =>
      match value.registryType with
      | .delete => false
      | .numeric => match data with | .dword dw => dw == value.numberValue | _ => false
      | .text => match data with | .str s => s == value.stringValue | _ => false

/-- policy_state_reader_windows.go `isPolFileListAllPresent` (a nil entry
value counts as absent; the Go code would dereference nil there). -/
def isPolFileListAllPresent (pol : PolCodec.PolFile) (list : PolicyRegistrySingleList)
    (defaultKey : String) : Bool :=
  let listKey := if list.defaultRegistryKey ≠ "" then list.defaultRegistryKey else defaultKey
  list.affectedValues.all (fun entry =>
    let entryKey := if entry.registryKey ≠ "" then entry.registryKey else listKey
    match entry.value with
    | some v => isPolFileValuePresent pol v entryKey entry.registryValue
    | none => false)

/-- policy_state_reader_windows.go `isPolFileListPresent`. -/
def isPolFileListPresent (pol : PolCodec.PolFile) (regList : PolicyRegistryList)
    (defaultKey defaultValue : String) (checkOn : Bool) : Bool :=
  let value := if checkOn then regList.onValue else regList.offValue
  let valueList := if checkOn then regList.onValueList else regList.offValueList
  match value with
  | some v => isPolFileValuePresent pol v defaultKey defaultValue
  | none =>
      match valueList with
      | some l => isPolFileListAllPresent pol l defaultKey
      | none => false

/-- policy_state_reader_windows.go `readPolicyElementsFromPolFile`:
element option values read from the .pol store (pseudo `**` value names
skipped, elements whose own value name is absent skipped). -/
def readPolicyElementsFromPolFile (pol : PolCodec.PolFile) (rawPolicy : AdmxPolicy) :
    Options :=
  rawPolicy.elements.foldl
    (fun options element =>
      let base := element.base
      let elemKey := elemKeyOf rawPolicy.registryKey base
      if startsWithStars base.registryValue then options
      else if ¬pol.containsValue elemKey base.registryValue then options
      else
        match pol.getValue elemKey base.registryValue with
        | none => options
        | some (val, _) =>
            match element with
            | .decimal _ _ _ _ storeAsText =>
                if storeAsText then
                  match val with
                  | .str s => options.insert base.id (.str s)
                  | _ => options
                else
                  match val with
                  | .dword dw => options.insert base.id (.u32 dw)
                  | _ => options
            | .text _ _ _ _ =>
                match val with
                | .str s => options.insert base.id (.str s)
                | _ => options
            | .boolean _ _ =>
                match val with
                | .dword dw => options.insert base.id (.boolv (dw == 1))
                | _ => options
            | .enum _ _ items =>
                match items.findIdx? (fun item =>
                    match item.value with
                    | some v => isPolFileValuePresent pol v elemKey base.registryValue
                    | none => false) with
                | some idx => options.insert base.id (.intv idx)
                | none => options
            | .multiText _ =>
                match val with
                | .multi strs => options.insert base.id (.strs strs)
                | _ => options
            | .list _ _ _ _ userProvidesNames =>
                let names := pol.getValueNames elemKey
                if userProvidesNames then
                  options.insert base.id (.dict (names.foldl
                    (fun acc name =>
                      match pol.getValue elemKey name with
                      | some (.str s, _) => acc ++ [(name, s)]
                      | _ => acc) []))
                else
                  options.insert base.id (.strs (names.foldl
                    (fun acc name =>
                      match pol.getValue elemKey name with
                      | some (.str s, _) => acc ++ [s]
                      | _ => acc) [])))
    []

/-- policy_state_reader_windows.go `getPolicyStateFromPolFile`: any
non-empty element options mean Enabled; otherwise the main value decides
(DWORD 1 Enabled, DWORD 0 Disabled, any other present value Enabled, an
absent value NotConfigured); otherwise the `AffectedValueSet`. -/
def getPolicyStateFromPolFile (pol : PolCodec.PolFile) (rawPolicy : AdmxPolicy) :
    PolicyState × Options :=
  let options := readPolicyElementsFromPolFile pol rawPolicy
  if options ≠ [] then (.enabled, options)
  else
    let afterMain : Option (PolicyState × Options) :=
      if rawPolicy.registryValue ≠ "" then
        if ¬pol.containsValue rawPolicy.registryKey rawPolicy.registryValue then
          some (.notConfigured, [])
        else
          match pol.getValue rawPolicy.registryKey rawPolicy.registryValue with
          | some (.dword 1, _) => some (.enabled, options)
          | some (.dword 0, _) => some (.disabled, [])
          | some _ => some (.enabled, options)
          | none => none
      else none
    match afterMain with
    | some r => r
    | none =>
        if isPolFileListPresent pol rawPolicy.affectedValues rawPolicy.registryKey
            rawPolicy.registryValue true then
          (.enabled, options)
        else if isPolFileListPresent pol rawPolicy.affectedValues rawPolicy.registryKey
            rawPolicy.registryValue false then
          (.disabled, [])
        else (.notConfigured, [])

/-- policy_state_reader_windows.go `isValuePresent` (registry side). -/
def isValuePresentR (source : RSource) (value : PolicyRegistryValue)
    (key valueName : String) : Bool :=
  if ¬source.containsValue key valueName then false
  else
    match source.getValue key valueName with
    | none => false
    | some data =>
        match value.registryType with
        | .delete => false
        | .numeric => match data with | .dword dw => dw == value.numberValue | _ => false
        | .text => match data with | .str s => s == value.stringValue | _ => false

/-- policy_state_reader_windows.go `isListAllPresent` (registry side). -/
def isListAllPresentR (source : RSource) (list : PolicyRegistrySingleList)
    (defaultKey : String) : Bool :=
  let listKey := if list.defaultRegistryKey ≠ "" then list.defaultRegistryKey else defaultKey
  list.affectedValues.all (fun entry =>
    let entryKey := if entry.registryKey ≠ "" then entry.registryKey else listKey
    match entry.value with
    | some v => isValuePresentR source v entryKey entry.registryValue
    | none => false)

/-- policy_state_reader_windows.go `isRegistryListPresent`. -/
def isRegistryListPresentR (source : RSource) (regList : PolicyRegistryList)
    (defaultKey defaultValue : String) (checkOn : Bool) : Bool :=
  let value := if checkOn then regList.onValue else regList.offValue
  let valueList := if checkOn then regList.onValueList else regList.offValueList
  match value with
  | some v => isValuePresentR source v defaultKey defaultValue
  | none =>
      match valueList with
      | some l => isListAllPresentR source l defaultKey
      | none => false

/-- policy_state_reader_windows.go `readPolicyElements` (registry side;
no pseudo-name skip there, and a failing name enumeration suppresses the
list element's entry). -/
def readPolicyElementsR (source : RSource) (policy : AdmxPolicy) : Options :=
  policy.elements.foldl
    (fun options element =>
      let base := element.base
      let elemKey := elemKeyOf policy.registryKey base
      if ¬source.containsValue elemKey base.registryValue then options
      else
        match source.getValue elemKey base.registryValue with
        | none => options
        | some val =>
            match element with
            | .decimal _ _ _ _ storeAsText =>
                if storeAsText then
                  match val with
                  | .str s => options.insert base.id (.str s)
                  | _ => options
                else
                  match val with
                  | .dword dw => options.insert base.id (.u32 dw)
                  | _ => options
            | .text _ _ _ _ =>
                match val with
                | .str s => options.insert base.id (.str s)
                | _ => options
            | .boolean _ _ =>
                match val with
                | .dword dw => options.insert base.id (.boolv (dw == 1))
                | _ => options
            | .enum _ _ items =>
                match items.findIdx? (fun item =>
                    match item.value with
                    | some v => isValuePresentR source v elemKey base.registryValue
                    | none => false) with
                | some idx => options.insert base.id (.intv idx)
                | none => options
            | .multiText _ =>
                match val with
                | .multi strs => options.insert base.id (.strs strs)
                | _ => options
            | .list _ _ _ _ userProvidesNames =>
                match source.getValueNames elemKey with
                | none => options
                | some names =>
                    if userProvidesNames then
                      options.insert base.id (.dict (names.foldl
                        (fun acc name =>
                          match source.getValue elemKey name with
                          | some (.str s) => acc ++ [(name, s)]
                          | _ => acc) []))
                    else
                      options.insert base.id (.strs (names.foldl
                        (fun acc name =>
                          match source.getValue elemKey name with
                          | some (.str s) => acc ++ [s]
                          | _ => acc) [])))
    []

/-- policy_state_reader_windows.go `GetPolicyState`: for a registry
source, resolve the .pol path and try the file first; any state other
than NotConfigured from the file is returned directly.  Otherwise fall
back to the registry evidence. -/
def GetPolicyState (fs : FS) (env : String) (isRegistrySource : Bool)
    (rootKey : Structures.RootKey) (source : RSource) (policy : AdmxPolicy) :
    PolicyState × Options × Option String :=
  let polResult : Option (PolicyState × Options) :=
    if isRegistrySource then
      let sect : Option AdmxPolicySection :=
        match rootKey with
        | .currentUser => some .user
        | .localMachine => some .machine
        | .other => none
      match sect with
      | none => none
      | some sec =>
          match PolSlice.getPolPath env sec with
          | .error _ => none
          | .ok polPath =>
              match PolCodec.load fs polPath with
              | .error _ => none
              | .ok pol =>
                  let so := getPolicyStateFromPolFile pol policy
                  if so.1 ≠ .notConfigured then some so else none
    else none
  match polResult with
  | some (st, opts) => (st, opts, none)
  | none =>
      if policy.registryValue ≠ "" ∧
          ¬source.containsValue policy.registryKey policy.registryValue then
        (.notConfigured, [], none)
      else if isRegistryListPresentR source policy.affectedValues policy.registryKey
          policy.registryValue true then
        (.enabled, readPolicyElementsR source policy, none)
      else if isRegistryListPresentR source policy.affectedValues policy.registryKey
          policy.registryValue false then
        (.disabled, [], none)
      else (.notConfigured, [], none)

end Reader

/-- C10: on the read path the .pol file backend takes precedence — when
the file loads and yields any state other than NotConfigured,
`GetPolicyState` returns that state for every registry source (the
registry is not consulted); and any element value present in the file
forces Enabled, regardless of the main value (even a DWORD 0 that alone
would mean Disabled). -/
theorem claim10_pol_precedence :
    (∀ (fs : FS) (env : String) (rootKey : Structures.RootKey)
       (sec : AdmxPolicySection) (polPath : String) (pol : PolCodec.PolFile)
       (policy : AdmxPolicy) (st : PolicyState) (opts : Options)
       (source : Reader.RSource),
      (match rootKey with
       | .currentUser => some AdmxPolicySection.user
       | .localMachine => some AdmxPolicySection.machine
       | .other => none) = some sec →
      PolSlice.getPolPath env sec = .ok polPath →
      PolCodec.load fs polPath = .ok pol →
      Reader.getPolicyStateFromPolFile pol policy = (st, opts) →
      st ≠ .notConfigured →
      Reader.GetPolicyState fs env true rootKey source policy = (st, opts, none)) ∧
    (∀ (pol : PolCodec.PolFile) (policy : AdmxPolicy),
      Reader.readPolicyElementsFromPolFile pol policy ≠ [] →
      (Reader.getPolicyStateFromPolFile pol policy).1 = .enabled) := by
  constructor
  · intro fs env rootKey sec polPath pol policy st opts source hsec hpath hload hstate hne
    unfold Reader.GetPolicyState
    cases rootKey
    case other => cases hsec
    case currentUser =>
        simp only [Option.some.injEq] at hsec
        subst hsec
        simp only [if_true]
        simp only [hpath]
        simp only [hload]
        simp only [hstate]
        simp only [ne_eq, hne, not_false_eq_true, if_true]
    case localMachine =>
        simp only [Option.some.injEq] at hsec
        subst hsec
        simp only [if_true]
        simp only [hpath]
        simp only [hload]
        simp only [hstate]
        simp only [ne_eq, hne, not_false_eq_true, if_true]
  · intro pol policy hne
    have h : Reader.getPolicyStateFromPolFile pol policy =
        (.enabled, Reader.readPolicyElementsFromPolFile pol policy) := by
      unfold Reader.getPolicyStateFromPolFile
      simp only [ne_eq, hne, not_false_eq_true, if_true]
    rw [h]

/-- The policy of the C10 test case: main value `Main`, one text element
`Val`, under key `Soft`. -/
def c10policy : AdmxPolicy := ⟨"Soft", "Main", .empty, [.text ⟨"E", "", "Val"⟩ false 255 false]⟩

/-- The machine-scope .pol path for `SystemRoot` = `C:\Windows`. -/
def c10path : String := "C:\\Windows\\System32\\GroupPolicy\\Machine\\Registry.pol"

/-- Bytes of a .pol file holding `Soft\Main` = DWORD 0 (alone meaning
Disabled) and `Soft\Val` = SZ "x" (an element value). -/
def c10bytes : List Nat :=
  u32le 0x67655250 ++ u32le 1
    ++ PolCodec.writeEntryBytes "Soft" "Main" ⟨4, [0, 0, 0, 0]⟩
    ++ PolCodec.writeEntryBytes "Soft" "Val" ⟨1, [0x78, 0, 0, 0]⟩

/-- A file system with the .pol file in place. -/
def c10fs : FS := FS.update FS.empty c10path (some c10bytes)

/-- The key-store `c10bytes` parses to. -/
def c10parsed : PolCodec.PolFile :=
  ⟨[("soft\\\\main", ⟨4, [0, 0, 0, 0]⟩), ("soft\\\\val", ⟨1, [0x78, 0, 0, 0]⟩)],
   [("soft\\\\main", "Soft\\\\Main"), ("soft\\\\val", "Soft\\\\Val")]⟩

/-- A registry source that reports nothing at all. -/
def c10src : Reader.RSource := ⟨fun _ _ => false, fun _ _ => none, fun _ => none⟩

/-- C10 witness: the concrete file yields Enabled from the element value
even though the main value is DWORD 0, and `GetPolicyState` returns it
without consulting the (empty) registry source. -/
theorem claim10_pol_precedence_witness :
    PolCodec.load c10fs c10path = .ok c10parsed ∧
    Reader.getPolicyStateFromPolFile c10parsed c10policy
      = (.enabled, [("E", .str "x")]) ∧
    c10parsed.getValue "Soft" "Main" = some (.dword 0, 4) ∧
    Reader.readPolicyElementsFromPolFile c10parsed c10policy ≠ [] ∧
    (Reader.getPolicyStateFromPolFile c10parsed c10policy).1 = .enabled ∧
    Reader.GetPolicyState c10fs "C:\\Windows" true .localMachine c10src c10policy
      = (.enabled, [("E", .str "x")], none) := by
  refine ⟨by rfl, by decide, by decide, by decide, ?_, ?_⟩
  · exact claim10_pol_precedence.2 c10parsed c10policy (by decide)
  · exact claim10_pol_precedence.1 c10fs "C:\\Windows" .localMachine .machine c10path
      c10parsed c10policy .enabled [("E", .str "x")] c10src rfl (by rfl) (by rfl)
      (by decide) (by decide)

namespace Bundle

/-- A directory tree: file existence (`os.Stat` succeeding) and directory
listing (`os.ReadDir`, entries in sorted order with their is-directory
flag; `none` is a read error). -/
structure DirFS where
  fileExists : String → Bool
  readDir : String → Option (List (String × Bool))

/-- `filepath.Join` on Windows. -/
def joinPath (a b : String) : String := a ++ "\\" ++ b

/-- Go `strings.TrimSuffix`. -/
def goTrimSuffix (s suffix : String) : String :=
  if suffix.data.length ≤ s.data.length ∧
      s.data.drop (s.data.length - suffix.data.length) = suffix.data then
    ⟨s.data.take (s.data.length - suffix.data.length)⟩
  else s

/-- ASCII whitespace (the inputs here never carry Unicode spaces). -/
def isSpaceChar (c : Char) : Bool := c = ' ' ∨ c = '\t' ∨ c = '\n' ∨ c = '\r'

/-- Go `strings.TrimSpace`. -/
def goTrimSpace (s : String) : String :=
  ⟨((s.data.dropWhile isSpaceChar).reverse.dropWhile isSpaceChar).reverse⟩

/-- Go `strings.Index(s, "-")` as a character index (`none` for -1; the
strings involved are ASCII, where byte and character indices agree). -/
def dashIdx (s : String) : Option Nat := s.data.findIdx? (fun c => c = '-')

/-- The `add` closure of admx_bundle.go `expandLocaleCandidates`:
trim, drop empties, deduplicate case-insensitively. -/
def elcAdd (acc : List String × List String) (loc : String) : List String × List String :=
  let l := goTrimSpace loc
  if l = "" then acc
  else
    let key := goToLower l
    if acc.1.contains key then acc
    else (acc.1 ++ [key], acc.2 ++ [l])

/-- admx_bundle.go `expandLocaleCandidates`: each requested locale, then
its base language (when a dash occurs after the first character), then
`en-US`. -/
def expandLocaleCandidates (languageCodes : List String) : List String :=
  let acc := languageCodes.foldl
    (fun acc loc =>
      let acc1 := elcAdd acc loc
      match dashIdx loc with
      | some idx => if idx > 0 then elcAdd acc1 ⟨loc.data.take idx⟩ else acc1
      | none => acc1)
    ([], [])
  (elcAdd acc "en-US").2

/-- The inner locale loop of `resolveAdmlPath` for one candidate
directory, threading the `tried` set of lowercased paths. -/
def tryLocales (fs : DirFS) (base : String) (cdir : String) :
    List String → List String → Option String × List String
  | [], tried => (none, tried)
  | loc :: locs, tried =>
      let localePath := joinPath (joinPath cdir loc) base
      let key := goToLower localePath
      if tried.contains key then tryLocales fs base cdir locs tried
      else
        let tried' := tried ++ [key]
        if fs.fileExists localePath then (some localePath, tried')
        else tryLocales fs base cdir locs tried'

/-- The outer candidate-directory loop of `resolveAdmlPath`: each
directory's own ADML first, then its locale subdirectories. -/
def resolveLoop (fs : DirFS) (base : String) (candidates : List String) :
    List String → List String → Option String
  | [], _ => none
  | cdir :: rest, tried =>
      if fs.fileExists (joinPath cdir base) then some (joinPath cdir base)
      else
        match tryLocales fs base cdir candidates tried with
        | (some p, _) => some p
        | (none, tried') => resolveLoop fs base candidates rest tried'

/-- admx_bundle.go `resolveAdmlPath`: the ADML beside the ADMX wins
outright; then the ADMX's directory and each subdirectory are scanned
(directory's own ADML, then each locale candidate); finally the fixed
`en-US` fallback under the ADMX's directory. -/
def resolveAdmlPath (fs : DirFS) (dir admxFileName : String)
    (languageCodes : List String) : Except String String :=
  let base := goTrimSuffix admxFileName ".admx" ++ ".adml"
  let directPath := joinPath dir base
  if fs.fileExists directPath then .ok directPath
  else
    let candidateDirs := [dir] ++
      (match fs.readDir dir with
       | none => []
       | some entries => entries.filterMap
          (fun e => if e.2 then some (joinPath dir e.1) else none))
    let candidates := expandLocaleCandidates languageCodes
    match resolveLoop fs base candidates candidateDirs [] with
    | some p => .ok p
    | none =>
        let fallback := joinPath (joinPath dir "en-US") base
        if fs.fileExists fallback then .ok fallback
        else .error ("adml not found for " ++ admxFileName)

/-- The locale resolution as the claim words it: try, in order, the exact
requested locale directory, its base-language directory, any sibling
directory matching the base language, then the fixed fallback locale; the
first directory containing the matching localization file wins.  This
definition follows the claim's words, for comparison with
`resolveAdmlPath`. -/
def specLocaleResolution (fs : DirFS) (dir admxFileName : String)
    (languageCodes : List String) : Option String :=
  let base := goTrimSuffix admxFileName ".admx" ++ ".adml"
  let loc := languageCodes.headD "en-US"
  let baseLang :=
    match dashIdx loc with
    | some i => if i > 0 then (⟨loc.data.take i⟩ : String) else loc
    | none => loc
  let siblings :=
    match fs.readDir dir with
    | none => []
    | some entries => entries.filterMap
        (fun e =>
          if e.2 ∧ (match dashIdx e.1 with
                    | some i => if i > 0 then (⟨e.1.data.take i⟩ : String) else e.1
                    | none => e.1) = baseLang then
            some (joinPath dir e.1)
          else none)
  let dirs := [joinPath dir loc, joinPath dir baseLang] ++ siblings
    ++ [joinPath dir "en-US"]
  (dirs.find? (fun d => fs.fileExists (joinPath d base))).map (fun d => joinPath d base)

end Bundle

/-- The C9 counterexample file tree: the ADML sits both beside the ADMX
and in the exact requested locale directory. -/
def c9fs : Bundle.DirFS :=
  { fileExists := fun p => p == "d\\foo.adml" || p == "d\\en-GB\\foo.adml"
    readDir := fun p => if p == "d" then some [("en-GB", true)] else none }

/-- The C9 amended-scenario file tree: the ADML exists only in the base
language directory `en`. -/
def c9fs2 : Bundle.DirFS :=
  { fileExists := fun p => p == "d\\en\\foo.adml"
    readDir := fun p => if p == "d" then some [("en", true)] else none }

/-- C9 counterexample: with the ADML present both beside the ADMX and in
the exact requested locale directory, the code returns the one beside the
ADMX, while the claimed order (exact locale directory first) picks the
locale directory's file. -/
theorem claim9_counterexample :
    Bundle.resolveAdmlPath c9fs "d" "foo.admx" ["en-GB"] = .ok "d\\foo.adml" ∧
    Bundle.specLocaleResolution c9fs "d" "foo.admx" ["en-GB"]
      = some "d\\en-GB\\foo.adml" ∧
    ("d\\foo.adml" : String) ≠ "d\\en-GB\\foo.adml" := by
  refine ⟨by rfl, by rfl, by decide⟩

/-- C9 amended: the actual search order is: the ADML beside the ADMX;
then for the ADMX's directory and each subdirectory: the directory's own
ADML, then each locale candidate subdirectory (the exact locale, its base
language, then `en-US`); finally `dir\en-US`.  In particular the claim's
base-language fallback scenario holds: requesting `en-GB` with an ADML
present only under `en` resolves to the `en` file. -/
theorem claim9_locale_fallback :
    Bundle.expandLocaleCandidates ["en-GB"] = ["en-GB", "en", "en-US"] ∧
    Bundle.resolveAdmlPath c9fs2 "d" "foo.admx" ["en-GB"] = .ok "d\\en\\foo.adml" := by
  refine ⟨by rfl, by rfl⟩

/-! Support for the codec round-trip: reading back what the serializer
wrote, at each layer of the format. -/

theorem readU16_u16le (v : Nat) (hv : v < 2 ^ 16) (r : List Nat) :
    readU16 (u16le v ++ r) = some (v, r) := by
  simp only [u16le, List.cons_append, List.nil_append, readU16]
  congr 1
  rw [Prod.mk.injEq]
  refine ⟨?_, rfl⟩
  omega

theorem readU32_u32le (v : Nat) (hv : v < 2 ^ 32) (r : List Nat) :
    readU32 (u32le v ++ r) = some (v, r) := by
  simp only [u32le, List.cons_append, List.nil_append, readU32]
  congr 1
  rw [Prod.mk.injEq]
  refine ⟨?_, rfl⟩
  omega

/-- A string with no NUL character (safe for null-terminated encoding). -/
def NulFreeStr (s : String) : Prop := ∀ c ∈ s.data, c.toNat ≠ 0

theorem readUnits_encoded (us : List Nat) (h : ∀ u ∈ us, u ≠ 0 ∧ u < 2 ^ 16)
    (r : List Nat) :
    readUnitsUntilZero (us.flatMap u16le ++ (0 :: 0 :: r)) = some (us, r) := by
  induction us with
  | nil => simp [readUnitsUntilZero]
  | cons u rest ih =>
      have hu := h u (by simp)
      simp only [List.flatMap_cons, u16le, List.cons_append, List.append_assoc,
        List.nil_append]
      rw [readUnitsUntilZero]
      have hval : u % 256 + 256 * (u / 256 % 256) = u := by omega
      rw [hval]
      rw [if_neg hu.1]
      rw [ih (fun x hx => h x (by simp [hx]))]

theorem toNat_ofNat_valid (n : Nat) (h : Nat.isValidChar n) : (Char.ofNat n).toNat = n := by
  unfold Char.ofNat
  rw [dif_pos h]
  rfl

theorem char_not_surrogate (c : Char) :
    c.toNat < 0xD800 ∨ (0xE000 ≤ c.toNat ∧ c.toNat < 0x110000) := by
  have h : Nat.isValidChar c.toNat := c.valid
  rcases h with h | ⟨h1, h2⟩
  · exact Or.inl h
  · exact Or.inr ⟨by omega, h2⟩

set_option maxRecDepth 8000

theorem encodeChar_bounds (c : Char) (hc : c.toNat ≠ 0) :
    ∀ u ∈ utf16EncodeChar c, u ≠ 0 ∧ u < 2 ^ 16 := by
  intro u hu
  have hv := char_not_surrogate c
  unfold utf16EncodeChar at hu
  by_cases h : c.toNat < 0x10000
  · rw [if_pos h] at hu
    simp only [List.mem_singleton] at hu
    subst hu
    exact ⟨hc, by omega⟩
  · rw [if_neg h] at hu
    simp only [List.mem_cons, List.mem_singleton, List.not_mem_nil, or_false] at hu
    have hm : c.toNat - 0x10000 < 0x100000 := by
      rcases hv with hv | ⟨_, hv2⟩ <;> omega
    have hdiv : (c.toNat - 0x10000) / 0x400 < 0x400 := by omega
    have hmod : (c.toNat - 0x10000) % 0x400 < 0x400 := Nat.mod_lt _ (by omega)
    rcases hu with hu | hu
    · exact ⟨by omega, by omega⟩
    · exact ⟨by omega, by omega⟩

theorem decode_encode_chars (cs : List Char) :
    utf16DecodeUnits (cs.flatMap utf16EncodeChar) = cs := by
  induction cs with
  | nil => rfl
  | cons c rest ih =>
      have hv := char_not_surrogate c
      simp only [List.flatMap_cons]
      by_cases h : c.toNat < 0x10000
      · have henc : utf16EncodeChar c = [c.toNat] := by
          unfold utf16EncodeChar
          rw [if_pos h]
        rw [henc]
        have hHigh : isHighSurrogate c.toNat = false := by
          unfold isHighSurrogate
          simp only [Bool.and_eq_false_iff, decide_eq_false_iff_not, not_le, not_lt]
          rcases hv with hv | ⟨hv1, _⟩
          · exact Or.inl (by omega)
          · exact Or.inr (by omega)
        have hLow : isLowSurrogate c.toNat = false := by
          unfold isLowSurrogate
          simp only [Bool.and_eq_false_iff, decide_eq_false_iff_not, not_le, not_lt]
          rcases hv with hv | ⟨hv1, _⟩
          · exact Or.inl (by omega)
          · exact Or.inr (by omega)
        match hrest : rest.flatMap utf16EncodeChar with
        | [] =>
            have hrnil : rest = [] := by
              cases rest with
              | nil => rfl
              | cons d ds =>
                  exfalso
                  have : utf16EncodeChar d ≠ [] := by
                    simp only [utf16EncodeChar]
                    split <;> simp
                  simp only [List.flatMap_cons] at hrest
                  exact this (List.append_eq_nil.mp hrest).1
            subst hrnil
            simp only [List.cons_append, List.nil_append]
            rw [utf16DecodeUnits]
            rw [hHigh, hLow]
            simp only [Bool.or_self, Bool.false_eq_true, if_false]
            rw [Nat.mod_eq_of_lt h, Char.ofNat_toNat]
        | u2 :: us2 =>
            simp only [List.cons_append, List.nil_append]
            rw [utf16DecodeUnits]
            rw [hHigh, hLow]
            simp only [Bool.false_eq_true, if_false]
            rw [Nat.mod_eq_of_lt h, Char.ofNat_toNat, ← hrest, ih]
      · have hm : c.toNat - 0x10000 < 0x100000 := by
          rcases hv with hv | ⟨_, hv2⟩ <;> omega
        have henc : utf16EncodeChar c =
            [0xD800 + (c.toNat - 0x10000) / 0x400, 0xDC00 + (c.toNat - 0x10000) % 0x400] := by
          unfold utf16EncodeChar
          rw [if_neg h]
        rw [henc]
        simp only [List.cons_append, List.nil_append]
        rw [utf16DecodeUnits]
        have hdiv : (c.toNat - 0x10000) / 0x400 < 0x400 := by omega
        have hHigh : isHighSurrogate (0xD800 + (c.toNat - 0x10000) / 0x400) = true := by
          unfold isHighSurrogate
          simp only [Bool.and_eq_true, decide_eq_true_eq]
          omega
        have hLow : isLowSurrogate (0xDC00 + (c.toNat - 0x10000) % 0x400) = true := by
          unfold isLowSurrogate
          simp only [Bool.and_eq_true, decide_eq_true_eq]
          have := Nat.mod_lt (c.toNat - 0x10000) (show 0 < 0x400 by omega)
          omega
        rw [hHigh, hLow]
        simp only [if_true]
        have harith : 0x10000 + (0xD800 + (c.toNat - 0x10000) / 0x400 - 0xD800) * 0x400
            + (0xDC00 + (c.toNat - 0x10000) % 0x400 - 0xDC00) = c.toNat := by
          have := Nat.div_add_mod (c.toNat - 0x10000) 0x400
          omega
        rw [harith, Char.ofNat_toNat, ih]

theorem decode_encode_str (s : String) :
    (⟨utf16DecodeUnits (utf16Encode s)⟩ : String) = s := by
  unfold utf16Encode
  rw [decode_encode_chars]

theorem decode_nulFree (us : List Nat) :
    (∀ u ∈ us, u ≠ 0 ∧ u < 2 ^ 16) → ∀ c ∈ utf16DecodeUnits us, c.toNat ≠ 0 := by
  have hrepl : replChar.toNat ≠ 0 := by decide
  induction us using utf16DecodeUnits.induct with
  | case1 =>
      intro _ c hc
      cases hc
  | case2 u hsur =>
      intro h c hc
      rw [utf16DecodeUnits, if_pos hsur] at hc
      simp only [List.mem_singleton] at hc
      subst hc
      exact hrepl
  | case3 u hsur =>
      intro h c hc
      have hu := h u (by simp)
      rw [utf16DecodeUnits, if_neg hsur] at hc
      simp only [List.mem_singleton] at hc
      subst hc
      simp only [Bool.or_eq_true, not_or, isHighSurrogate, isLowSurrogate,
        Bool.and_eq_true, decide_eq_true_eq, not_and, not_le] at hsur
      rw [toNat_ofNat_valid]
      · omega
      · rw [Nat.mod_eq_of_lt (show u < 65536 by omega)]
        rcases Nat.lt_or_ge u 0xD800 with h1 | h1
        · exact Or.inl h1
        · have h2 := hsur.1 h1
          have h3 := hsur.2 (by omega)
          exact Or.inr ⟨by omega, by omega⟩
  | case4 u u2 rest2 hhi hlo ih =>
      intro h c hc
      rw [utf16DecodeUnits, if_pos hhi, if_pos hlo] at hc
      rcases List.mem_cons.mp hc with hc | hc
      · simp only [isHighSurrogate, isLowSurrogate, Bool.and_eq_true,
          decide_eq_true_eq] at hhi hlo
        rw [hc, toNat_ofNat_valid]
        · omega
        · refine Or.inr ⟨by omega, ?_⟩
          omega
      · exact ih (fun x hx => h x (by simp [hx])) c hc
  | case5 u u2 rest2 hhi hlo ih =>
      intro h c hc
      rw [utf16DecodeUnits, if_pos hhi, if_neg hlo] at hc
      rcases List.mem_cons.mp hc with hc | hc
      · subst hc; exact hrepl
      · exact ih (fun x hx => h x (by simp at hx ⊢; tauto)) c hc
  | case6 u u2 rest2 hhi hlo ih =>
      intro h c hc
      rw [utf16DecodeUnits, if_neg hhi, if_pos hlo] at hc
      rcases List.mem_cons.mp hc with hc | hc
      · subst hc; exact hrepl
      · exact ih (fun x hx => h x (by simp at hx ⊢; tauto)) c hc
  | case7 u u2 rest2 hhi hlo ih =>
      intro h c hc
      have hu := h u (by simp)
      rw [utf16DecodeUnits, if_neg hhi, if_neg hlo] at hc
      rcases List.mem_cons.mp hc with hc | hc
      · subst hc
        simp only [isHighSurrogate, isLowSurrogate, Bool.and_eq_true,
          decide_eq_true_eq, not_and, not_le] at hhi hlo
        rw [toNat_ofNat_valid]
        · omega
        · rw [Nat.mod_eq_of_lt (show u < 65536 by omega)]
          rcases Nat.lt_or_ge u 0xD800 with h1 | h1
          · exact Or.inl h1
          · have h2 := hhi h1
            have h3 := hlo (by omega)
            exact Or.inr ⟨by omega, by omega⟩
      · exact ih (fun x hx => h x (by simp at hx ⊢; tauto)) c hc

namespace PolCodec

theorem readU16_props (bs : List Nat) (v : Nat) (r : List Nat)
    (h : readU16 bs = some (v, r)) :
    (∀ x ∈ r, x ∈ bs) ∧ ((∀ b ∈ bs, b < 256) → v < 2 ^ 16) := by
  cases bs with
  | nil => cases h
  | cons b0 t =>
      cases t with
      | nil => cases h
      | cons b1 rest =>
          simp only [readU16, Option.some.injEq, Prod.mk.injEq] at h
          obtain ⟨hv, hr⟩ := h
          subst hv
          subst hr
          refine ⟨fun x hx => by simp [hx], fun hb => ?_⟩
          have h0 := hb b0 (by simp)
          have h1 := hb b1 (by simp)
          omega

theorem readU32_props (bs : List Nat) (v : Nat) (r : List Nat)
    (h : readU32 bs = some (v, r)) :
    (∀ x ∈ r, x ∈ bs) ∧ ((∀ b ∈ bs, b < 256) → v < 2 ^ 32) := by
  cases bs with
  | nil => cases h
  | cons b0 t0 =>
  cases t0 with
  | nil => cases h
  | cons b1 t1 =>
  cases t1 with
  | nil => cases h
  | cons b2 t2 =>
  cases t2 with
  | nil => cases h
  | cons b3 rest =>
      simp only [readU32, Option.some.injEq, Prod.mk.injEq] at h
      obtain ⟨hv, hr⟩ := h
      subst hv
      subst hr
      refine ⟨fun x hx => by simp [hx], fun hb => ?_⟩
      have h0 := hb b0 (by simp)
      have h1 := hb b1 (by simp)
      have h2 := hb b2 (by simp)
      have h3 := hb b3 (by simp)
      omega

theorem readUnits_props : ∀ (bs us r : List Nat), readUnitsUntilZero bs = some (us, r) →
    (∀ x ∈ r, x ∈ bs) ∧ (∀ u ∈ us, u ≠ 0) ∧
      ((∀ b ∈ bs, b < 256) → ∀ u ∈ us, u < 2 ^ 16) := by
  intro bs
  induction bs using readUnitsUntilZero.induct with
  | case1 b0 b1 rest u hu =>
      intro us r h
      have hu' : b0 + 256 * b1 = 0 := hu
      simp only [readUnitsUntilZero] at h
      rw [if_pos hu'] at h
      simp only [Option.some.injEq, Prod.mk.injEq] at h
      obtain ⟨hus, hr⟩ := h
      subst hus
      subst hr
      refine ⟨fun x hx => by simp [hx], fun u2 hu2 => ?_, fun _ u2 hu2 => ?_⟩
      · cases hu2
      · cases hu2
  | case2 b0 b1 rest u hu us0 r0 hrec ih =>
      intro us r h
      have hu' : ¬ (b0 + 256 * b1 = 0) := hu
      simp only [readUnitsUntilZero] at h
      rw [if_neg hu', hrec] at h
      simp only [Option.some.injEq, Prod.mk.injEq] at h
      obtain ⟨hus, hr⟩ := h
      subst hus
      subst hr
      obtain ⟨hsub, hnz, hbd⟩ := ih us0 r0 hrec
      refine ⟨fun x hx => by simp [hsub x hx], ?_, ?_⟩
      · intro u2 hu2
        rcases List.mem_cons.mp hu2 with hu2 | hu2
        · subst hu2; exact hu'
        · exact hnz u2 hu2
      · intro hb u2 hu2
        have hb' : ∀ b ∈ rest, b < 256 := fun b hbm => hb b (by simp [hbm])
        rcases List.mem_cons.mp hu2 with hu2 | hu2
        · subst hu2
          have h0 := hb b0 (by simp)
          have h1 := hb b1 (by simp)
          omega
        · exact hbd hb' u2 hu2
  | case3 b0 b1 rest u hu hnone ih =>
      intro us r h
      have hu' : ¬ (b0 + 256 * b1 = 0) := hu
      simp only [readUnitsUntilZero] at h
      rw [if_neg hu', hnone] at h
      cases h
  | case4 t hshape =>
      intro us r h
      cases t with
      | nil => cases h
      | cons b0 t0 =>
          cases t0 with
          | nil => cases h
          | cons b1 rest => exact absurd rfl (fun hh => hshape b0 b1 rest hh)

theorem readEntry_tail_props (semi2 : Nat) (r6 : List Nat) (keyUnits valUnits : List Nat)
    (kk vv : String) (d : PolEntryData) (r : List Nat)
    (h : (if semi2 ≠ 0x3B then Except.error "expected semicolon"
          else
            match readU32 r6 with
            | none => Except.error "type"
            | some (regType, r7) =>
                match readU16 r7 with
                | none => Except.error "semicolon"
                | some (semi3, r8) =>
                    if semi3 ≠ 0x3B then Except.error "expected semicolon"
                    else
                      match readU32 r8 with
                      | none => Except.error "length"
                      | some (length, r9) =>
                          match readU16 r9 with
                          | none => Except.error "semicolon"
                          | some (semi4, r10) =>
                              if semi4 ≠ 0x3B then Except.error "expected semicolon"
                              else if length > r10.length then Except.error "data"
                              else
                                let data := r10.take length
                                let r11 := r10.drop length
                                match readU16 r11 with
                                | none => Except.error "close bracket"
                                | some (closeB, r12) =>
                                    if closeB ≠ 0x5D then Except.error "expected close bracket"
                                    else
                                      Except.ok ((⟨utf16DecodeUnits keyUnits⟩,
                                                  ⟨utf16DecodeUnits valUnits⟩,
                                                  ⟨regType, data⟩), r12))
          = Except.ok ((kk, vv, d), r)) :
    (∀ x ∈ r, x ∈ r6) ∧ kk = ⟨utf16DecodeUnits keyUnits⟩ ∧ vv = ⟨utf16DecodeUnits valUnits⟩ ∧
      ((∀ b ∈ r6, b < 256) → d.kind < 2 ^ 32 ∧ d.data.length < 2 ^ 32) := by
  by_cases h2 : semi2 ≠ 0x3B
  · rw [if_pos h2] at h; cases h
  · rw [if_neg h2] at h
    cases h3 : readU32 r6 with
    | none => rw [h3] at h; cases h
    | some p3 =>
    obtain ⟨regType, r7⟩ := p3
    simp only [h3] at h
    have s7 := (readU32_props r6 regType r7 h3).1
    have bReg := (readU32_props r6 regType r7 h3).2
    cases h4 : readU16 r7 with
    | none => rw [h4] at h; cases h
    | some p4 =>
    obtain ⟨semi3, r8⟩ := p4
    simp only [h4] at h
    have s8 := (readU16_props r7 semi3 r8 h4).1
    by_cases h5 : semi3 ≠ 0x3B
    · rw [if_pos h5] at h; cases h
    · rw [if_neg h5] at h
      cases h6 : readU32 r8 with
      | none => rw [h6] at h; cases h
      | some p6 =>
      obtain ⟨length, r9⟩ := p6
      simp only [h6] at h
      have s9 := (readU32_props r8 length r9 h6).1
      have bLen := (readU32_props r8 length r9 h6).2
      cases h7 : readU16 r9 with
      | none => rw [h7] at h; cases h
      | some p7 =>
      obtain ⟨semi4, r10⟩ := p7
      simp only [h7] at h
      have s10 := (readU16_props r9 semi4 r10 h7).1
      by_cases h8 : semi4 ≠ 0x3B
      · rw [if_pos h8] at h; cases h
      · rw [if_neg h8] at h
        by_cases h9 : length > r10.length
        · rw [if_pos h9] at h; cases h
        · rw [if_neg h9] at h
          cases h10 : readU16 (r10.drop length) with
          | none => rw [h10] at h; cases h
          | some p10 =>
          obtain ⟨closeB, r12⟩ := p10
          simp only [h10] at h
          have s12 := (readU16_props (r10.drop length) closeB r12 h10).1
          by_cases h11 : closeB ≠ 0x5D
          · rw [if_pos h11] at h; cases h
          · rw [if_neg h11] at h
            cases h
            refine ⟨?_, rfl, rfl, ?_⟩
            · intro x hx
              exact s7 _ (s8 _ (s9 _ (s10 _ (List.drop_subset _ _ (s12 x hx)))))
            · intro hb
              have hb8 : ∀ b ∈ r8, b < 256 := fun b hbm => hb b (s7 _ (s8 _ hbm))
              refine ⟨bReg hb, ?_⟩
              have hlen := bLen hb8
              have hle : (r10.take length).length ≤ length := by
                rw [List.length_take]
                exact Nat.min_le_left _ _
              show (r10.take length).length < 2 ^ 32
              omega

theorem readEntry_props (bs : List Nat) (kk vv : String) (d : PolEntryData) (r : List Nat)
    (h : readEntry bs = .ok ((kk, vv, d), r)) :
    (∀ x ∈ r, x ∈ bs) ∧
      ((∀ b ∈ bs, b < 256) →
        NulFreeStr kk ∧ NulFreeStr vv ∧ d.kind < 2 ^ 32 ∧ d.data.length < 2 ^ 32) := by
  unfold readEntry at h
  cases h1 : readU16 bs with
  | none => rw [h1] at h; cases h
  | some p1 =>
  obtain ⟨bracket, r1⟩ := p1
  simp only [h1] at h
  have s1 := (readU16_props bs bracket r1 h1).1
  by_cases hb1 : bracket ≠ 0x5B
  · rw [if_pos hb1] at h; cases h
  · rw [if_neg hb1] at h
    cases h2 : readUnitsUntilZero r1 with
    | none => rw [h2] at h; cases h
    | some p2 =>
    obtain ⟨keyUnits, r2⟩ := p2
    simp only [h2] at h
    obtain ⟨s2, kNZ, kBD⟩ := readUnits_props r1 keyUnits r2 h2
    cases h3 : readU16 r2 with
    | none => rw [h3] at h; cases h
    | some p3 =>
    obtain ⟨semi1, r3⟩ := p3
    simp only [h3] at h
    have s3 := (readU16_props r2 semi1 r3 h3).1
    by_cases hs1 : semi1 ≠ 0x3B
    · rw [if_pos hs1] at h; cases h
    · rw [if_neg hs1] at h
      cases h4 : readUnitsUntilZero r3 with
      | none => rw [h4] at h; cases h
      | some p4 =>
      obtain ⟨valUnits, r4⟩ := p4
      simp only [h4] at h
      obtain ⟨s4, vNZ, vBD⟩ := readUnits_props r3 valUnits r4 h4
      cases h5 : readU16 r4 with
      | none => rw [h5] at h; cases h
      | some p5 =>
      obtain ⟨semi2a, r5⟩ := p5
      simp only [h5] at h
      have s5 := (readU16_props r4 semi2a r5 h5).1
      -- resolve the tolerated extra null before the second semicolon
      have hmain : ∃ semi2 r6, (∀ x ∈ r6, x ∈ r5) ∧
          ((match
            (if semi2a = 0 then
              match readU16 r5 with
              | none => Except.error "semicolon"
              | some (semi2b, r6) => Except.ok (semi2b, r6)
            else Except.ok (semi2a, r5)) with
          | .error e => Except.error e
          | .ok (semi2, r6) =>
              (if semi2 ≠ 0x3B then Except.error "expected semicolon"
               else
                 match readU32 r6 with
                 | none => Except.error "type"
                 | some (regType, r7) =>
                     match readU16 r7 with
                     | none => Except.error "semicolon"
                     | some (semi3, r8) =>
                         if semi3 ≠ 0x3B then Except.error "expected semicolon"
                         else
                           match readU32 r8 with
                           | none => Except.error "length"
                           | some (length, r9) =>
                               match readU16 r9 with
                               | none => Except.error "semicolon"
                               | some (semi4, r10) =>
                                   if semi4 ≠ 0x3B then Except.error "expected semicolon"
                                   else if length > r10.length then Except.error "data"
                                   else
                                     let data := r10.take length
                                     let r11 := r10.drop length
                                     match readU16 r11 with
                                     | none => Except.error "close bracket"
                                     | some (closeB, r12) =>
                                         if closeB ≠ 0x5D then
                                           Except.error "expected close bracket"
                                         else
                                           Except.ok ((⟨utf16DecodeUnits keyUnits⟩,
                                                       ⟨utf16DecodeUnits valUnits⟩,
                                                       ⟨regType, data⟩), r12)))
          = Except.ok ((kk, vv, d), r) →
          (if semi2 ≠ 0x3B then Except.error "expected semicolon"
           else
             match readU32 r6 with
             | none => Except.error "type"
             | some (regType, r7) =>
                 match readU16 r7 with
                 | none => Except.error "semicolon"
                 | some (semi3, r8) =>
                     if semi3 ≠ 0x3B then Except.error "expected semicolon"
                     else
                       match readU32 r8 with
                       | none => Except.error "length"
                       | some (length, r9) =>
                           match readU16 r9 with
                           | none => Except.error "semicolon"
                           | some (semi4, r10) =>
                               if semi4 ≠ 0x3B then Except.error "expected semicolon"
                               else if length > r10.length then Except.error "data"
                               else
                                 let data := r10.take length
                                 let r11 := r10.drop length
                                 match readU16 r11 with
                                 | none => Except.error "close bracket"
                                 | some (closeB, r12) =>
                                     if closeB ≠ 0x5D then
                                       Except.error "expected close bracket"
                                     else
                                       Except.ok ((⟨utf16DecodeUnits keyUnits⟩,
                                                   ⟨utf16DecodeUnits valUnits⟩,
                                                   ⟨regType, data⟩), r12))
          = Except.ok ((kk, vv, d), r)) := by
        by_cases h0 : semi2a = 0
        · rw [if_pos h0]
          cases h6 : readU16 r5 with
          | none =>
              refine ⟨0, [], ?_, ?_⟩
              · intro x hx
                cases hx
              · intro hcontra
                cases hcontra
          | some p6 =>
              obtain ⟨semi2b, r6⟩ := p6
              refine ⟨semi2b, r6, ?_, ?_⟩
              · exact (readU16_props r5 semi2b r6 h6).1
              · intro htail
                exact htail
        · rw [if_neg h0]
          refine ⟨semi2a, r5, ?_, ?_⟩
          · exact fun x hx => hx
          · exact fun htail => htail
      obtain ⟨semi2, r6, s6, hred⟩ := hmain
      have htail := hred h
      have := readEntry_tail_props semi2 r6 keyUnits valUnits kk vv d r htail
      obtain ⟨sr, hkk, hvv, hbound⟩ := this
      constructor
      · intro x hx
        exact s1 _ (s2 _ (s3 _ (s4 _ (s5 _ (s6 _ (sr x hx))))))
      · intro hb
        have hb1' : ∀ b ∈ r1, b < 256 := fun b hbm => hb b (s1 _ hbm)
        have hb3' : ∀ b ∈ r3, b < 256 := fun b hbm => hb1' b (s2 _ (s3 _ hbm))
        have hb6' : ∀ b ∈ r6, b < 256 :=
          fun b hbm => hb3' b (s4 _ (s5 _ (s6 _ hbm)))
        refine ⟨?_, ?_, hbound hb6'⟩
        · subst hkk
          intro c hc
          exact decode_nulFree keyUnits
            (fun u hu => ⟨kNZ u hu, kBD hb1' u hu⟩) c hc
        · subst hvv
          intro c hc
          exact decode_nulFree valUnits
            (fun u hu => ⟨vNZ u hu, vBD (fun b hbm => hb1' b (s2 _ (s3 _ hbm))) u hu⟩) c hc

theorem splitOnSep_sound : ∀ (cs : List Char) (a b : List Char),
    splitOnSepChars cs = some (a, b) → cs = a ++ '\\' :: '\\' :: b := by
  intro cs
  induction cs using splitOnSepChars.induct with
  | case1 rest =>
      intro a b h
      rw [splitOnSepChars] at h
      cases h
      rfl
  | case2 c rest hne ih =>
      intro a b h
      rw [splitOnSepChars] at h
      · rw [Option.map_eq_some'] at h
        obtain ⟨⟨a0, b0⟩, hab, heq⟩ := h
        cases heq
        rw [List.cons_append]
        exact congrArg (List.cons c) (ih a0 b0 hab)
      · exact hne
  | case3 =>
      intro a b h
      rw [splitOnSepChars] at h
      cases h

theorem splitOnSep_isSome : ∀ (cs : List Char), (∃ a b, cs = a ++ '\\' :: '\\' :: b) →
    (splitOnSepChars cs).isSome = true := by
  intro cs
  induction cs using splitOnSepChars.induct with
  | case1 rest => intro _; rw [splitOnSepChars]; rfl
  | case2 c rest hne ih =>
      intro h
      obtain ⟨a, b, hab⟩ := h
      rw [splitOnSepChars]
      · cases a with
        | nil =>
            exfalso
            simp only [List.nil_append, List.cons.injEq] at hab
            exact hne b hab.1 hab.2
        | cons c0 a0 =>
            simp only [List.cons_append, List.cons.injEq] at hab
            rw [Option.isSome_map']
            exact ih ⟨a0, b, hab.2⟩
      · exact hne
  | case3 =>
      intro h
      obtain ⟨a, b, hab⟩ := h
      cases a <;> cases hab

theorem alGet?_eq_none {α : Type} (l : List (String × α)) (k : String) :
    alGet? l k = none ↔ k ∉ l.map Prod.fst := by
  simp only [alGet?, Option.map_eq_none', List.find?_eq_none, List.mem_map, beq_iff_eq]
  constructor
  · rintro h ⟨e, he, hk⟩
    exact h e he hk
  · rintro h e he hk
    exact h ⟨e, he, hk⟩

theorem alGet?_isSome_iff {α : Type} (l : List (String × α)) (k : String) :
    (alGet? l k).isSome = true ↔ k ∈ l.map Prod.fst := by
  constructor
  · intro h
    by_contra hk
    rw [(alGet?_eq_none l k).mpr hk] at h
    cases h
  · intro h
    cases hs : alGet? l k with
    | none => exact absurd ((alGet?_eq_none l k).mp hs) (fun hx => hx h)
    | some v => rfl

theorem alGet?_mem {α : Type} (l : List (String × α)) (k : String) (v : α)
    (h : alGet? l k = some v) : (k, v) ∈ l := by
  simp only [alGet?, Option.map_eq_some'] at h
  obtain ⟨e, he, hv⟩ := h
  have hmem := List.mem_of_find?_eq_some he
  have hp := List.find?_some he
  simp only [beq_iff_eq] at hp
  cases e
  cases hp
  cases hv
  exact hmem

theorem alGet?_append_left {α : Type} (l1 l2 : List (String × α)) (k : String)
    (h : (alGet? l1 k).isSome = true) : alGet? (l1 ++ l2) k = alGet? l1 k := by
  induction l1 with
  | nil => cases h
  | cons e l ih =>
      by_cases he : e.1 == k
      · simp [alGet?, List.find?_cons, he]
      · simp only [alGet?, List.cons_append, List.find?_cons, he] at *
        exact ih h

theorem alGet?_append_right {α : Type} (l1 l2 : List (String × α)) (k : String)
    (h : alGet? l1 k = none) : alGet? (l1 ++ l2) k = alGet? l2 k := by
  induction l1 with
  | nil => rfl
  | cons e l ih =>
      by_cases he : e.1 == k
      · simp [alGet?, List.find?_cons, he] at h
      · simp only [alGet?, List.cons_append, List.find?_cons, he] at *
        exact ih h

theorem alSet_mapped_get_same {α : Type} (k : String) (v : α) :
    ∀ (l : List (String × α)),
    alGet? (l.map (fun e => if e.1 == k then (k, v) else e)) k =
      if (l.find? (fun e => e.1 == k)).isSome then some v else none := by
  intro l
  induction l with
  | nil => rfl
  | cons e l ih =>
      by_cases he : (e.1 == k) = true
      · rw [List.map_cons, if_pos he]
        have h1 : List.find? (fun e => e.1 == k)
            ((k, v) :: l.map (fun e => if e.1 == k then (k, v) else e)) = some (k, v) :=
          List.find?_cons_of_pos _ (by simp)
        have h2 : List.find? (fun e => e.1 == k) (e :: l) = some e :=
          List.find?_cons_of_pos _ he
        simp only [alGet?, h1, h2, Option.map_some', Option.isSome_some, if_true]
      · rw [List.map_cons, if_neg he]
        have h1 : List.find? (fun e => e.1 == k)
            (e :: l.map (fun e => if e.1 == k then (k, v) else e)) =
            List.find? (fun e => e.1 == k)
              (l.map (fun e => if e.1 == k then (k, v) else e)) :=
          List.find?_cons_of_neg _ he
        have h2 : List.find? (fun e => e.1 == k) (e :: l) =
            List.find? (fun e => e.1 == k) l :=
          List.find?_cons_of_neg _ he
        simp only [alGet?] at ih ⊢
        rw [h1, h2]
        exact ih

theorem alGet?_mapped_other {α : Type} (k k' : String) (hk : k' ≠ k) (v : α) :
    ∀ (l : List (String × α)),
    alGet? (l.map (fun e => if e.1 == k then (k, v) else e)) k' = alGet? l k' := by
  have hk3 : ¬ (((k : String) == k') = true) := by
    simp only [beq_iff_eq]
    exact fun hh => hk hh.symm
  intro l
  induction l with
  | nil => rfl
  | cons e l ih =>
      by_cases he : (e.1 == k) = true
      · have he1 : e.1 = k := by simpa [beq_iff_eq] using he
        have hk4 : ¬ ((e.1 == k') = true) := by rw [he1]; exact hk3
        rw [List.map_cons, if_pos he]
        have h1 : List.find? (fun e => e.1 == k')
            ((k, v) :: l.map (fun e => if e.1 == k then (k, v) else e)) =
            List.find? (fun e => e.1 == k')
              (l.map (fun e => if e.1 == k then (k, v) else e)) :=
          List.find?_cons_of_neg _ hk3
        have h2 : List.find? (fun e => e.1 == k') (e :: l) =
            List.find? (fun e => e.1 == k') l :=
          List.find?_cons_of_neg _ hk4
        simp only [alGet?] at ih ⊢
        rw [h1, h2]
        exact ih
      · rw [List.map_cons, if_neg he]
        by_cases hek : (e.1 == k') = true
        · have h1 : List.find? (fun e => e.1 == k')
              (e :: l.map (fun e => if e.1 == k then (k, v) else e)) = some e :=
            List.find?_cons_of_pos _ hek
          have h2 : List.find? (fun e => e.1 == k') (e :: l) = some e :=
            List.find?_cons_of_pos _ hek
          simp only [alGet?, h1, h2]
        · have h1 : List.find? (fun e => e.1 == k')
              (e :: l.map (fun e => if e.1 == k then (k, v) else e)) =
              List.find? (fun e => e.1 == k')
                (l.map (fun e => if e.1 == k then (k, v) else e)) :=
            List.find?_cons_of_neg _ hek
          have h2 : List.find? (fun e => e.1 == k') (e :: l) =
              List.find? (fun e => e.1 == k') l :=
            List.find?_cons_of_neg _ hek
          simp only [alGet?] at ih ⊢
          rw [h1, h2]
          exact ih

theorem alSet_get_same {α : Type} (l : List (String × α)) (k : String) (v : α) :
    alGet? (alSet l k v) k = some v := by
  unfold alSet
  by_cases h : (l.find? (fun e => e.1 == k)).isSome
  · rw [if_pos h, alSet_mapped_get_same, if_pos h]
  · rw [if_neg h]
    rw [alGet?_append_right]
    · simp [alGet?]
    · cases hf : l.find? (fun e => e.1 == k) with
      | none => simp [alGet?, hf]
      | some e => rw [hf] at h; cases h rfl

theorem alSet_get_other {α : Type} (l : List (String × α)) (k k' : String) (v : α)
    (hk : k' ≠ k) : alGet? (alSet l k v) k' = alGet? l k' := by
  unfold alSet
  by_cases h : (l.find? (fun e => e.1 == k)).isSome
  · rw [if_pos h]
    exact alGet?_mapped_other k k' hk v l
  · rw [if_neg h]
    by_cases hl : (alGet? l k').isSome
    · exact alGet?_append_left l _ k' hl
    · rw [Option.not_isSome_iff_eq_none] at hl
      rw [alGet?_append_right l _ k' hl, hl]
      have hk2 : ((k : String) == k') = false := by
        simp only [beq_eq_false_iff_ne, ne_eq]
        exact fun hh => hk hh.symm
      simp [alGet?, hk2]

theorem alSet_keys_present {α : Type} (l : List (String × α)) (k : String) (v : α)
    (h : (l.find? (fun e => e.1 == k)).isSome = true) :
    (alSet l k v).map Prod.fst = l.map Prod.fst := by
  unfold alSet
  rw [if_pos h, List.map_map]
  apply List.map_congr_left
  intro e _
  by_cases he : e.1 == k
  · have : e.1 = k := by simpa [beq_iff_eq] using he
    simp [Function.comp, he, this]
  · simp [Function.comp, he]

theorem alSet_keys_absent {α : Type} (l : List (String × α)) (k : String) (v : α)
    (h : ¬ (l.find? (fun e => e.1 == k)).isSome = true) :
    (alSet l k v).map Prod.fst = l.map Prod.fst ++ [k] := by
  unfold alSet
  rw [if_neg h, List.map_append]
  rfl

theorem alGet?_map_assoc {α : Type} (f : String → α) (k0 : String) :
    ∀ (ks : List String),
    alGet? (ks.map (fun k => (k, f k))) k0 = if k0 ∈ ks then some (f k0) else none := by
  intro ks
  induction ks with
  | nil => simp [alGet?]
  | cons k ks ih =>
      by_cases hk : k == k0
      · have : k = k0 := by simpa [beq_iff_eq] using hk
        subst this
        simp [alGet?, List.find?_cons, hk]
      · have hne : k0 ≠ k := fun hh => by simp [beq_iff_eq, hh.symm] at hk
        simp only [List.map_cons, alGet?, List.find?_cons, hk, cond_false,
          List.mem_cons]
        rw [← alGet?]
        rw [ih]
        have : (k0 = k ∨ k0 ∈ ks) ↔ k0 ∈ ks := by
          constructor
          · rintro (hh | hh)
            · exact absurd hh hne
            · exact hh
          · exact Or.inr
        by_cases hm : k0 ∈ ks
        · rw [if_pos hm, if_pos (this.mpr hm)]
        · rw [if_neg hm, if_neg (fun hh => hm (this.mp hh))]

theorem alGet?_isSome_eq_find {α : Type} (l : List (String × α)) (k : String) :
    (alGet? l k).isSome = (l.find? (fun e => e.1 == k)).isSome := by
  unfold alGet?
  exact Option.isSome_map'

theorem alSet_mem {α : Type} (l : List (String × α)) (k : String) (v : α) :
    ∀ pe ∈ alSet l k v, pe = (k, v) ∨ pe ∈ l := by
  unfold alSet
  by_cases hf : (l.find? (fun e => e.1 == k)).isSome
  · rw [if_pos hf]
    intro pe hpe
    obtain ⟨e, he, hfe⟩ := List.mem_map.mp hpe
    by_cases h2 : (e.1 == k) = true
    · rw [if_pos h2] at hfe
      exact Or.inl hfe.symm
    · rw [if_neg h2] at hfe
      exact Or.inr (hfe ▸ he)
  · rw [if_neg hf]
    intro pe hpe
    rcases List.mem_append.mp hpe with hpe | hpe
    · exact Or.inr hpe
    · simp only [List.mem_singleton] at hpe
      exact Or.inl hpe

/-- Well-formedness of a store as produced by the parser: entry keys are
distinct, every entry's type code and payload length fit 32 bits and its
original casing was recorded, and every recorded casing lowercases back to
its key, contains the dictionary separator, and is free of NUL characters. -/
def PolWF (p : PolFile) : Prop :=
  (p.entries.map Prod.fst).Nodup ∧
  (∀ pe ∈ p.entries, pe.2.kind < 2 ^ 32 ∧ pe.2.data.length < 2 ^ 32 ∧
    (alGet? p.casePreservation pe.1).isSome = true) ∧
  (∀ co ∈ p.casePreservation, goToLower co.2 = co.1 ∧
    (splitOnSepChars co.2.data).isSome = true ∧ NulFreeStr co.2)

theorem emptyPolFile_wf : PolWF emptyPolFile := by
  refine ⟨List.nodup_nil, ?_, ?_⟩
  · intro pe hpe
    cases hpe
  · intro co hco
    cases hco

theorem dictKey_data (k v : String) :
    (k ++ "\\\\" ++ v).data = k.data ++ '\\' :: '\\' :: v.data := by
  have h1 : (k ++ "\\\\" ++ v).data = k.data ++ ['\\', '\\'] ++ v.data := by
    simp [String.data_append]
  rw [h1]
  simp

theorem dictKey_nulFree (k v : String) (hknf : NulFreeStr k) (hvnf : NulFreeStr v) :
    NulFreeStr (k ++ "\\\\" ++ v) := by
  intro c hc
  rw [dictKey_data] at hc
  rcases List.mem_append.mp hc with hc | hc
  · exact hknf c hc
  · rcases List.mem_cons.mp hc with hc | hc
    · subst hc; decide
    · rcases List.mem_cons.mp hc with hc | hc
      · subst hc; decide
      · exact hvnf c hc

theorem polStep_wf (p : PolFile) (k v : String) (d : PolEntryData)
    (hp : PolWF p) (hknf : NulFreeStr k) (hvnf : NulFreeStr v)
    (hkind : d.kind < 2 ^ 32) (hlen : d.data.length < 2 ^ 32) :
    PolWF { (getDictKey p k v).1 with
            entries := alSet (getDictKey p k v).1.entries (getDictKey p k v).2 d } := by
  obtain ⟨hnd, hent, hcp⟩ := hp
  have hnodup : ∀ (cp' : List (String × String)),
      (alSet p.entries (goToLower (k ++ "\\\\" ++ v)) d |>.map Prod.fst).Nodup := by
    intro _
    by_cases hf : (p.entries.find? (fun e => e.1 == goToLower (k ++ "\\\\" ++ v))).isSome = true
    · rw [alSet_keys_present _ _ _ hf]
      exact hnd
    · rw [alSet_keys_absent _ _ _ hf]
      have hmem : goToLower (k ++ "\\\\" ++ v) ∉ p.entries.map Prod.fst := by
        intro hmem
        apply hf
        rw [← alGet?_isSome_eq_find]
        exact (alGet?_isSome_iff _ _).mpr hmem
      simp [List.nodup_append, hnd, hmem]
  simp only [getDictKey]
  by_cases hc : (alGet? p.casePreservation (goToLower (k ++ "\\\\" ++ v))).isSome = true
  · rw [if_pos hc]
    refine ⟨hnodup p.casePreservation, ?_, hcp⟩
    intro pe hpe
    rcases alSet_mem _ _ _ pe hpe with hpe | hpe
    · subst hpe
      exact ⟨hkind, hlen, hc⟩
    · exact hent pe hpe
  · rw [if_neg hc]
    have hc' : alGet? p.casePreservation (goToLower (k ++ "\\\\" ++ v)) = none :=
      Option.not_isSome_iff_eq_none.mp hc
    refine ⟨hnodup [], ?_, ?_⟩
    · intro pe hpe
      rcases alSet_mem _ _ _ pe hpe with hpe | hpe
      · subst hpe
        refine ⟨hkind, hlen, ?_⟩
        rw [alGet?_append_right _ _ _ hc']
        simp [alGet?]
      · obtain ⟨h1, h2, h3⟩ := hent pe hpe
        refine ⟨h1, h2, ?_⟩
        rw [alGet?_append_left _ _ _ h3]
        exact h3
    · intro co hco
      rcases List.mem_append.mp hco with hco | hco
      · exact hcp co hco
      · simp only [List.mem_singleton] at hco
        subst hco
        refine ⟨rfl, ?_, dictKey_nulFree k v hknf hvnf⟩
        exact splitOnSep_isSome _ ⟨k.data, v.data, dictKey_data k v⟩

theorem loadLoop_wf : ∀ (fuel : Nat) (p : PolFile) (bs : List Nat) (q : PolFile),
    (∀ b ∈ bs, b < 256) → PolWF p → loadLoop fuel p bs = .ok q → PolWF q := by
  intro fuel
  induction fuel with
  | zero =>
      intro p bs q hb hp h
      cases bs with
      | nil =>
          simp only [loadLoop, Except.ok.injEq] at h
          subst h
          exact hp
      | cons b t =>
          simp only [loadLoop] at h
          cases h
  | succ n ih =>
      intro p bs q hb hp h
      cases bs with
      | nil =>
          simp only [loadLoop, Except.ok.injEq] at h
          subst h
          exact hp
      | cons b t =>
          simp only [loadLoop] at h
          cases hre : readEntry (b :: t) with
          | error e => rw [hre] at h; cases h
          | ok pr =>
              obtain ⟨⟨k, v, d⟩, rest⟩ := pr
              simp only [hre] at h
              obtain ⟨hsub, hprops⟩ := readEntry_props (b :: t) k v d rest hre
              obtain ⟨hknf, hvnf, hkind, hlen⟩ := hprops hb
              exact ih _ rest q (fun x hx => hb x (hsub x hx))
                (polStep_wf p k v d ⟨hp.1, hp.2.1, hp.2.2⟩ hknf hvnf hkind hlen) h

theorem loadFromReader_wf (bs : List Nat) (p : PolFile) (hb : ∀ b ∈ bs, b < 256)
    (h : loadFromReader bs = .ok p) : PolWF p := by
  unfold loadFromReader at h
  cases h1 : readU32 bs with
  | none => rw [h1] at h; cases h
  | some p1 =>
  obtain ⟨sig, r1⟩ := p1
  simp only [h1] at h
  by_cases hs : sig ≠ 0x67655250
  · rw [if_pos hs] at h; cases h
  · rw [if_neg hs] at h
    cases h2 : readU32 r1 with
    | none => rw [h2] at h; cases h
    | some p2 =>
    obtain ⟨ver, r2⟩ := p2
    simp only [h2] at h
    by_cases hv : ver ≠ 1
    · rw [if_pos hv] at h; cases h
    · rw [if_neg hv] at h
      have hb2 : ∀ b ∈ r2, b < 256 :=
        fun b hbm =>
          hb b ((readU32_props bs sig r1 h1).1 _ ((readU32_props r1 ver r2 h2).1 _ hbm))
      exact loadLoop_wf (r2.length + 1) emptyPolFile r2 p hb2 emptyPolFile_wf h


theorem readEntry_writeEntry (kn vn : String) (e : PolEntryData) (rest : List Nat)
    (hknf : NulFreeStr kn) (hvnf : NulFreeStr vn)
    (hkind : e.kind < 2 ^ 32) (hlen : e.data.length < 2 ^ 32) :
    readEntry (writeEntryBytes kn vn e ++ rest) = .ok ((kn, vn, e), rest) := by
  have hkU : ∀ u ∈ utf16Encode kn, u ≠ 0 ∧ u < 2 ^ 16 := by
    intro u hu
    simp only [utf16Encode] at hu
    obtain ⟨c, hc, hcu⟩ := List.mem_flatMap.mp hu
    exact encodeChar_bounds c (hknf c hc) u hcu
  have hvU : ∀ u ∈ utf16Encode vn, u ≠ 0 ∧ u < 2 ^ 16 := by
    intro u hu
    simp only [utf16Encode] at hu
    obtain ⟨c, hc, hcu⟩ := List.mem_flatMap.mp hu
    exact encodeChar_bounds c (hvnf c hc) u hcu
  have c1 : ¬ ((0x5B : Nat) ≠ 0x5B) := by norm_num
  have c2 : ¬ ((0x3B : Nat) ≠ 0x3B) := by norm_num
  have c3 : ¬ ((0x3B : Nat) = 0) := by norm_num
  have c4 : ¬ ((0x5D : Nat) ≠ 0x5D) := by norm_num
  have c5 : ¬ (e.data.length > (e.data ++ (u16le 0x5D ++ rest)).length) := by
    simp only [List.length_append, gt_iff_lt]
    omega
  simp only [writeEntryBytes, List.append_assoc, List.cons_append, List.nil_append,
    readEntry,
    readU16_u16le 0x5B (by norm_num), readU16_u16le 0x3B (by norm_num),
    readU16_u16le 0x5D (by norm_num),
    readUnits_encoded (utf16Encode kn) hkU, readUnits_encoded (utf16Encode vn) hvU,
    readU32_u32le e.kind hkind, readU32_u32le e.data.length hlen,
    if_neg c1, if_neg c2, if_neg c3, if_neg c4, if_neg c5,
    List.take_left, List.drop_left, decode_encode_str]

/-- The payload stored for a dictionary key (Go map read with zero value). -/
def entryOf (p : PolFile) (k : String) : PolEntryData :=
  (alGet? p.entries k).getD ⟨0, []⟩

/-- The recorded original casing for a dictionary key. -/
def caseOf (p : PolFile) (k : String) : String :=
  (alGet? p.casePreservation k).getD ""

/-- The byte block `SaveToWriter` emits for one dictionary key. -/
def blockFor (p : PolFile) (dictKey : String) : List Nat :=
  writeEntryBytes (goSplitN2 (caseOf p dictKey)).1 (goSplitN2 (caseOf p dictKey)).2.1
    (entryOf p dictKey)

theorem saveToWriter_eq (p : PolFile) :
    saveToWriter p = u32le 0x67655250 ++ u32le 1
      ++ (List.insertionSort (fun a b => a ≤ b) (p.entries.map Prod.fst)).flatMap
          (blockFor p) := rfl

theorem string_data_inj (x y : String) (h : x.data = y.data) : x = y := by
  cases x
  cases y
  exact congrArg String.mk h

theorem loadLoop_step (fuel : Nat) (q : PolFile) (bs : List Nat) (k v : String)
    (d : PolEntryData) (rest : List Nat) (hne : bs ≠ [])
    (hre : readEntry bs = .ok ((k, v, d), rest)) :
    loadLoop (fuel + 1) q bs =
      loadLoop fuel { (getDictKey q k v).1 with
                      entries := alSet (getDictKey q k v).1.entries (getDictKey q k v).2 d }
        rest := by
  cases bs with
  | nil => cases hne rfl
  | cons b t => simp only [loadLoop, hre]

theorem block_props (p : PolFile) (hwf : PolWF p) (k : String)
    (hk : k ∈ p.entries.map Prod.fst) :
    NulFreeStr (goSplitN2 (caseOf p k)).1 ∧ NulFreeStr (goSplitN2 (caseOf p k)).2.1 ∧
    (entryOf p k).kind < 2 ^ 32 ∧ (entryOf p k).data.length < 2 ^ 32 ∧
    (goSplitN2 (caseOf p k)).1 ++ "\\\\" ++ (goSplitN2 (caseOf p k)).2.1 = caseOf p k ∧
    goToLower (caseOf p k) = k := by
  obtain ⟨hnd, hent, hcp⟩ := hwf
  have hes : (alGet? p.entries k).isSome = true := (alGet?_isSome_iff _ _).mpr hk
  cases he : alGet? p.entries k with
  | none => rw [he] at hes; cases hes
  | some ent =>
  have hmem := alGet?_mem _ _ _ he
  obtain ⟨hkind, hlen, hcs⟩ := hent _ hmem
  cases hco : alGet? p.casePreservation k with
  | none => rw [hco] at hcs; cases hcs
  | some o =>
  have hocm := alGet?_mem _ _ _ hco
  obtain ⟨hlow, hsp, hnf⟩ := hcp _ hocm
  have hcaseOf : caseOf p k = o := by rw [caseOf, hco]; rfl
  have hentryOf : entryOf p k = ent := by rw [entryOf, he]; rfl
  cases hsplit : splitOnSepChars o.data with
  | none => rw [hsplit] at hsp; cases hsp
  | some ab =>
  obtain ⟨a, b⟩ := ab
  have hsound := splitOnSep_sound o.data a b hsplit
  have hgs : goSplitN2 o = (⟨a⟩, ⟨b⟩, true) := by
    rw [goSplitN2, hsplit]
  rw [hcaseOf, hentryOf, hgs]
  refine ⟨?_, ?_, hkind, hlen, ?_, ?_⟩
  · intro c hc
    exact hnf c (by rw [hsound]; exact List.mem_append_left _ hc)
  · intro c hc
    have hcb : c ∈ b := hc
    apply hnf c
    rw [hsound]
    exact List.mem_append_right _ (List.mem_cons_of_mem _ (List.mem_cons_of_mem _ hcb))
  · refine string_data_inj _ _ ?_
    rw [dictKey_data]
    exact hsound.symm
  · exact hlow

theorem loadLoop_blocks (p : PolFile) (hwf : PolWF p) :
    ∀ (ks done : List String) (fuel : Nat),
      (done ++ ks).Nodup →
      (∀ k ∈ done ++ ks, k ∈ p.entries.map Prod.fst) →
      (ks.flatMap (blockFor p)).length + 1 ≤ fuel →
      loadLoop fuel
        ⟨done.map (fun k => (k, entryOf p k)), done.map (fun k => (k, caseOf p k))⟩
        (ks.flatMap (blockFor p))
      = .ok ⟨(done ++ ks).map (fun k => (k, entryOf p k)),
             (done ++ ks).map (fun k => (k, caseOf p k))⟩ := by
  intro ks
  induction ks with
  | nil =>
      intro done fuel hnd hmem hfuel
      simp only [List.flatMap_nil, List.append_nil, loadLoop]
  | cons k ks ih =>
      intro done fuel hnd hmem hfuel
      have hkmem : k ∈ p.entries.map Prod.fst := hmem k (by simp)
      obtain ⟨hanf, hbnf, hkind, hlen, hrebuild, hlow⟩ := block_props p hwf k hkmem
      have hkdone : k ∉ done := by
        rcases List.nodup_append.mp hnd with ⟨_, _, hdisj⟩
        intro hkd
        exact hdisj hkd (by simp)
      simp only [List.flatMap_cons]
      have hbne : blockFor p k ≠ [] := by
        simp [blockFor, writeEntryBytes, u16le]
      cases fuel with
      | zero => exact absurd hfuel (by omega)
      | succ n =>
      have hre := readEntry_writeEntry (goSplitN2 (caseOf p k)).1
        (goSplitN2 (caseOf p k)).2.1 (entryOf p k) (ks.flatMap (blockFor p)) hanf hbnf
        hkind hlen
      rw [loadLoop_step n _ _ _ _ _ _
        (fun hh => hbne (List.append_eq_nil.mp hh).1) hre]
      have hcpnone : alGet? (done.map (fun k => (k, caseOf p k))) k = none := by
        rw [alGet?_map_assoc, if_neg hkdone]
      have hennone : alGet? (done.map (fun k => (k, entryOf p k))) k = none := by
        rw [alGet?_map_assoc, if_neg hkdone]
      have hgd : getDictKey
          ⟨done.map (fun k => (k, entryOf p k)), done.map (fun k => (k, caseOf p k))⟩
          (goSplitN2 (caseOf p k)).1 (goSplitN2 (caseOf p k)).2.1 =
          (⟨done.map (fun k => (k, entryOf p k)),
            done.map (fun k => (k, caseOf p k)) ++ [(k, caseOf p k)]⟩, k) := by
        simp only [getDictKey, hrebuild, hlow, hcpnone, Option.isSome_none,
          Bool.false_eq_true, if_false]
      rw [hgd]
      have hset : alSet (done.map (fun k => (k, entryOf p k))) k (entryOf p k) =
          done.map (fun k => (k, entryOf p k)) ++ [(k, entryOf p k)] := by
        unfold alSet
        rw [if_neg]
        rw [← alGet?_isSome_eq_find, hennone]
        exact fun hh => by cases hh
      have step2 : loadLoop n
          ⟨done.map (fun k => (k, entryOf p k)) ++ [(k, entryOf p k)],
           done.map (fun k => (k, caseOf p k)) ++ [(k, caseOf p k)]⟩
          (ks.flatMap (blockFor p)) =
          .ok ⟨((done ++ [k]) ++ ks).map (fun k => (k, entryOf p k)),
               ((done ++ [k]) ++ ks).map (fun k => (k, caseOf p k))⟩ := by
        have hmap1 : done.map (fun k => (k, entryOf p k)) ++ [(k, entryOf p k)] =
            (done ++ [k]).map (fun k => (k, entryOf p k)) := by
          rw [List.map_append]
          rfl
        have hmap2 : done.map (fun k => (k, caseOf p k)) ++ [(k, caseOf p k)] =
            (done ++ [k]).map (fun k => (k, caseOf p k)) := by
          rw [List.map_append]
          rfl
        rw [hmap1, hmap2]
        apply ih (done ++ [k]) n
        · rw [List.append_assoc]
          exact hnd
        · intro k2 hk2
          apply hmem k2
          rw [List.append_assoc] at hk2
          exact hk2
        · have hbl : 1 ≤ (blockFor p k).length := List.length_pos.mpr hbne
          simp only [List.flatMap_cons, List.length_append] at hfuel
          omega
      rw [hset]
      rw [step2]
      rw [List.append_assoc]
      rfl

theorem loadFromReader_saveToWriter (p : PolFile) (hwf : PolWF p) :
    loadFromReader (saveToWriter p) =
      .ok ⟨(List.insertionSort (fun a b => a ≤ b) (p.entries.map Prod.fst)).map
             (fun k => (k, entryOf p k)),
           (List.insertionSort (fun a b => a ≤ b) (p.entries.map Prod.fst)).map
             (fun k => (k, caseOf p k))⟩ := by
  have c6 : ¬ ((0x67655250 : Nat) ≠ 0x67655250) := by norm_num
  have c7 : ¬ ((1 : Nat) ≠ 1) := by norm_num
  rw [saveToWriter_eq, List.append_assoc]
  simp only [loadFromReader, readU32_u32le 0x67655250 (by norm_num),
    readU32_u32le 1 (by norm_num), if_neg c6, if_neg c7]
  have hperm := List.perm_insertionSort (fun a b => a ≤ b) (p.entries.map Prod.fst)
  exact loadLoop_blocks p hwf
    (List.insertionSort (fun a b => a ≤ b) (p.entries.map Prod.fst)) []
    (((List.insertionSort (fun a b => a ≤ b) (p.entries.map Prod.fst)).flatMap
       (blockFor p)).length + 1)
    (hperm.nodup_iff.mpr hwf.1)
    (fun k2 hk2 => hperm.mem_iff.mp hk2)
    (le_refl _)

end PolCodec

/-- C3: for every key-store produced by parsing a policy file, serializing
it and parsing the result yields an equal store (the same payload under
every dictionary key, hence the same value names, type codes and payload
bytes), and serializing the re-parsed store reproduces the exact same
bytes (determinism via the sorted key order).  The byte-value bound states
that the input is a byte stream. -/
theorem claim3_roundtrip (bs : List Nat) (pol : PolCodec.PolFile)
    (hb : ∀ b ∈ bs, b < 256)
    (h : PolCodec.loadFromReader bs = .ok pol) :
    ∃ pol' : PolCodec.PolFile,
      PolCodec.loadFromReader (PolCodec.saveToWriter pol) = .ok pol' ∧
      (∀ k : String, PolCodec.alGet? pol'.entries k = PolCodec.alGet? pol.entries k) ∧
      PolCodec.saveToWriter pol' = PolCodec.saveToWriter pol := by
  have hwf := PolCodec.loadFromReader_wf bs pol hb h
  refine ⟨⟨(List.insertionSort (fun a b => a ≤ b) (pol.entries.map Prod.fst)).map
             (fun k => (k, PolCodec.entryOf pol k)),
           (List.insertionSort (fun a b => a ≤ b) (pol.entries.map Prod.fst)).map
             (fun k => (k, PolCodec.caseOf pol k))⟩,
    PolCodec.loadFromReader_saveToWriter pol hwf, ?_, ?_⟩
  · intro k
    show PolCodec.alGet?
        ((List.insertionSort (fun a b => a ≤ b) (pol.entries.map Prod.fst)).map
          (fun k => (k, PolCodec.entryOf pol k))) k = PolCodec.alGet? pol.entries k
    rw [PolCodec.alGet?_map_assoc]
    by_cases hk : k ∈ List.insertionSort (fun a b => a ≤ b) (pol.entries.map Prod.fst)
    · rw [if_pos hk]
      have hk2 : k ∈ pol.entries.map Prod.fst :=
        (List.perm_insertionSort _ _).mem_iff.mp hk
      have hes := (PolCodec.alGet?_isSome_iff _ _).mpr hk2
      cases he : PolCodec.alGet? pol.entries k with
      | none => rw [he] at hes; cases hes
      | some ent =>
          rw [PolCodec.entryOf, he]
          rfl
    · rw [if_neg hk]
      have hnk : k ∉ pol.entries.map Prod.fst := fun hh =>
        hk ((List.perm_insertionSort _ _).mem_iff.mpr hh)
      exact ((PolCodec.alGet?_eq_none _ _).mpr hnk).symm
  · rw [PolCodec.saveToWriter_eq, PolCodec.saveToWriter_eq]
    have hkeys : (((List.insertionSort (fun a b => a ≤ b) (pol.entries.map Prod.fst)).map
        (fun k => (k, PolCodec.entryOf pol k))).map Prod.fst) =
        List.insertionSort (fun a b => a ≤ b) (pol.entries.map Prod.fst) := by
      rw [List.map_map]
      exact List.map_id' _
    rw [hkeys]
    have hsort : List.insertionSort (fun a b => a ≤ b)
        (List.insertionSort (fun a b => a ≤ b) (pol.entries.map Prod.fst)) =
        List.insertionSort (fun a b => a ≤ b) (pol.entries.map Prod.fst) :=
      List.Sorted.insertionSort_eq (List.sorted_insertionSort _ _)
    rw [hsort]
    have hblk : ∀ k2 ∈ List.insertionSort (fun a b => a ≤ b) (pol.entries.map Prod.fst),
        PolCodec.blockFor
          ⟨(List.insertionSort (fun a b => a ≤ b) (pol.entries.map Prod.fst)).map
             (fun k => (k, PolCodec.entryOf pol k)),
           (List.insertionSort (fun a b => a ≤ b) (pol.entries.map Prod.fst)).map
             (fun k => (k, PolCodec.caseOf pol k))⟩ k2 =
        PolCodec.blockFor pol k2 := by
      intro k2 hk2
      have h1 : PolCodec.caseOf
          ⟨(List.insertionSort (fun a b => a ≤ b) (pol.entries.map Prod.fst)).map
             (fun k => (k, PolCodec.entryOf pol k)),
           (List.insertionSort (fun a b => a ≤ b) (pol.entries.map Prod.fst)).map
             (fun k => (k, PolCodec.caseOf pol k))⟩ k2 = PolCodec.caseOf pol k2 := by
        show ((PolCodec.alGet?
          ((List.insertionSort (fun a b => a ≤ b) (pol.entries.map Prod.fst)).map
            (fun k => (k, PolCodec.caseOf pol k))) k2).getD "") = PolCodec.caseOf pol k2
        rw [PolCodec.alGet?_map_assoc, if_pos hk2]
        rfl
      have h2 : PolCodec.entryOf
          ⟨(List.insertionSort (fun a b => a ≤ b) (pol.entries.map Prod.fst)).map
             (fun k => (k, PolCodec.entryOf pol k)),
           (List.insertionSort (fun a b => a ≤ b) (pol.entries.map Prod.fst)).map
             (fun k => (k, PolCodec.caseOf pol k))⟩ k2 = PolCodec.entryOf pol k2 := by
        show ((PolCodec.alGet?
          ((List.insertionSort (fun a b => a ≤ b) (pol.entries.map Prod.fst)).map
            (fun k => (k, PolCodec.entryOf pol k))) k2).getD ⟨0, []⟩) =
          PolCodec.entryOf pol k2
        rw [PolCodec.alGet?_map_assoc, if_pos hk2]
        rfl
      rw [PolCodec.blockFor, PolCodec.blockFor, h1, h2]
    rw [List.flatMap_def, List.flatMap_def, List.map_congr_left hblk]


/-- A concrete one-entry policy file image: header plus one entry
`Soft\Val` of type `REG_SZ` carrying the UTF-16LE string data `"x"`. -/
def c3bytes : List Nat :=
  u32le 0x67655250 ++ u32le 1
    ++ PolCodec.writeEntryBytes "Soft" "Val" ⟨1, [0x78, 0, 0, 0]⟩

/-- The store `LoadFromReader` produces for `c3bytes`. -/
def c3parsed : PolCodec.PolFile :=
  ⟨[("soft\\\\val", ⟨1, [0x78, 0, 0, 0]⟩)], [("soft\\\\val", "Soft\\\\Val")]⟩

theorem claim3_roundtrip_witness :
    (∀ b ∈ c3bytes, b < 256) ∧
    (∃ pol' : PolCodec.PolFile,
      PolCodec.loadFromReader (PolCodec.saveToWriter c3parsed) = .ok pol' ∧
      (∀ k : String, PolCodec.alGet? pol'.entries k = PolCodec.alGet? c3parsed.entries k) ∧
      PolCodec.saveToWriter pol' = PolCodec.saveToWriter c3parsed) :=
  ⟨by decide, claim3_roundtrip c3bytes c3parsed (by decide) (by rfl)⟩

end GoPolicy
